import Mathlib

/-!
Verification of the request-dependency-graph reconstruction and blocking
simulation engine of the DIP content-blocking analysis repository.

The Python source mutates `RequestNode` objects in place and links them by
object references.  We embed the graph as an arena: a list of nodes addressed
by their creation index, with `children` / `parents` stored as index lists.
All mutating methods become functions `RequestTree → RequestTree`.  Recursive
traversals of the (acyclic, creation-ordered) graph are written with an
explicit fuel parameter; `nodes.length` fuel suffices because every edge goes
from a smaller to a larger index in trees built by the graph builder, which is
the well-formedness assumption used by the general theorems.

Python `dict`s of fingerprinting attempts (`group name -> count`) are embedded
as association lists with unique keys.  Code paths that would raise a Python
exception (e.g. `int + None` inside `add_substract_fp_attempts`, attribute
access on `None`) are modelled with `Option`, `none` marking the exception.
-/

namespace DIP

/-- FP-attempt map: Python dict `group name -> count`. -/
abbrev FpMap := List (String × Int)

/-- `dict.get(k)`: the first binding of `k`, if any. -/
def fpGet (m : FpMap) (k : String) : Option Int :=
  match m with
  | [] => none
  | (k', v) :: rest => if k' = k then some v else fpGet rest k

/-- `dict.get(k, d)`. -/
def fpGetD (m : FpMap) (k : String) (d : Int) : Int := (fpGet m k).getD d

/-- The keys of a map, in insertion order. -/
def fpKeys (m : FpMap) : List String := m.map Prod.fst

/-- Python `dict ==` (order-insensitive equality of key/value sets). -/
def fpDictEq (a b : FpMap) : Bool :=
  a.all (fun p => fpGet b p.1 == some p.2) && b.all (fun p => fpGet a p.1 == some p.2)

/-- The `for (group_name, ...) in longer_callers.items()` loop shared by
`add_substract_fp_attempts` and `add_subtrees`: build the result dict entry by
entry, looking every key up in `other`; a missing key is the Python
`TypeError` / `KeyError`, modelled as `none`. -/
def combineEntries (other : List (String × Int)) (op : Int → Int → Int) :
    List (String × Int) → Option (List (String × Int))
  | [] => some []
  | p :: rest =>
    match fpGet other p.1 with
    | none => none
    | some w => (combineEntries other op rest).map (fun r => (p.1, op p.2 w) :: r)

/-- `add_substract_fp_attempts` from `source/utils.py` (the identical copy in
`source/traffic_parser/request_tree.py` backs the `RequestTree` methods).
Adds or subtracts two FP-attempt dicts.  The iteration runs over the longer
dict and looks each key up in the other; a key of the longer dict missing from
the other yields Python `int + None`, a `TypeError`, modelled as `none`.
The `isinstance(..., int)` compatibility coercions only fire on non-dict
arguments, which the embedding's types exclude. -/
def addSubstractFpAttempts (callers1 callers2 : FpMap) (add : Bool := true) :
    Option FpMap :=
  let longerCallers := if callers2.length ≤ callers1.length then callers1 else callers2
  if callers1 = [] ∨ callers2 = [] then
    some longerCallers
  else
    let otherCaller := if fpDictEq longerCallers callers2 then callers1 else callers2
    combineEntries otherCaller (fun a b => if add then a + b else a - b) longerCallers

/-- One request node: `RequestNode` of
`source/traffic_parser/request_node.py`, with the object links replaced by
arena indices. -/
structure RequestNode where
  time : Int
  resource : String
  fpAttempts : FpMap
  children : List Nat
  parents : List Nat
  rootNode : Bool := false
  repeated : Bool := false
  blocked : Bool := false
deriving DecidableEq

instance : Inhabited RequestNode :=
  ⟨{ time := 0, resource := "", fpAttempts := [], children := [], parents := [] }⟩

/-- `RequestTree` of `source/traffic_parser/request_tree.py`: the arena of all
nodes created while parsing one page plus the index of the designated root. -/
structure RequestTree where
  nodes : List RequestNode
  rootId : Nat
deriving DecidableEq

/-- Dereference an arena index (out-of-range reads yield the default node;
they never occur under well-formedness). -/
def getNode (t : RequestTree) (i : Nat) : RequestNode := t.nodes.getD i default

/-! ### Traversals (`RequestNode` / `RequestTree` methods)

Each recursive Python method becomes a fuel-indexed function; fuel
`t.nodes.length` is enough on builder-produced trees, where every child index
exceeds its parent's. -/

/-- `RequestNode.get_all_children_nodes`: pre-order list of the node and all
its (per-path, with repetition) descendants. -/
def getAllChildrenNodes (t : RequestTree) : Nat → Nat → List Nat
  | 0, _ => []
  | fuel + 1, i => i :: ((getNode t i).children.map (getAllChildrenNodes t fuel)).flatten

/-- `RequestTree.find_nodes` / `__recursive_node_check`: all nodes carrying a
resource, except that the search never descends below a match. -/
def findNodes (t : RequestTree) : Nat → Nat → String → List Nat
  | 0, _, _ => []
  | fuel + 1, i, res =>
    if (getNode t i).resource = res then [i]
    else ((getNode t i).children.map (fun c => findNodes t fuel c res)).flatten

/-- `RequestTree.total_blocked`: number of blocked nodes, counted per path. -/
def totalBlocked (t : RequestTree) : Nat → Nat → Nat
  | 0, _ => 0
  | fuel + 1, i =>
    (if (getNode t i).blocked then 1 else 0) +
      ((getNode t i).children.map (totalBlocked t fuel)).sum

/-- `RequestTree.firstly_blocked`: the first blocked node on every root path;
the walk does not descend below a blocked node. -/
def firstlyBlocked (t : RequestTree) : Nat → Nat → List Nat
  | 0, _ => []
  | fuel + 1, i =>
    if (getNode t i).blocked then [i]
    else ((getNode t i).children.map (firstlyBlocked t fuel)).flatten

/-- `RequestTree.blocked_at_levels`: depth of the first block on each path. -/
def blockedAtLevels (t : RequestTree) : Nat → Nat → Nat → List Nat
  | 0, _, _ => []
  | fuel + 1, i, level =>
    if (getNode t i).blocked then [level]
    else ((getNode t i).children.map
      (fun c => blockedAtLevels t fuel c (level + 1))).flatten

/-- `RequestTree.total_fpd_attempts`: FP attempts summed over every node,
once per path. -/
def totalFpdAttempts (t : RequestTree) : Nat → Nat → Option FpMap
  | 0, _ => none
  | fuel + 1, i => do
    let base ← addSubstractFpAttempts (getNode t i).fpAttempts []
    (getNode t i).children.foldlM (fun acc c => do
      let sub ← totalFpdAttempts t fuel c
      addSubstractFpAttempts sub acc) base

/-- `RequestTree.first_blocked_fpd_attempts`: FP attempts summed at the first
blocked node of each path only. -/
def firstBlockedFpdAttempts (t : RequestTree) : Nat → Nat → Option FpMap
  | 0, _ => none
  | fuel + 1, i =>
    if (getNode t i).blocked then some (getNode t i).fpAttempts
    else (getNode t i).children.foldlM (fun acc c => do
      let sub ← firstBlockedFpdAttempts t fuel c
      addSubstractFpAttempts sub acc) []

/-- `RequestTree.total_blocked_fpd_attempts`: FP attempts summed over every
blocked node (the walk continues below blocked nodes). -/
def totalBlockedFpdAttempts (t : RequestTree) : Nat → Nat → Option FpMap
  | 0, _ => none
  | fuel + 1, i => do
    let base ←
      if (getNode t i).blocked then
        addSubstractFpAttempts (getNode t i).fpAttempts []
      else pure []
    (getNode t i).children.foldlM (fun acc c => do
      let sub ← totalBlockedFpdAttempts t fuel c
      addSubstractFpAttempts sub acc) base

/-- `RequestTree.get_all_requests`: every requested resource, per path.
(The time-sort of `get_all_children_resources` only permutes the list and is
irrelevant to the counts the claims use, so the pre-order is kept.) -/
def getAllRequests (t : RequestTree) (fuel i : Nat) : List String :=
  (getAllChildrenNodes t fuel i).map (fun j => (getNode t j).resource)

/-! ### Flag mutation (`RequestNode.block` and friends) -/

/-- Overwrite node `i` with `nd` (no-op out of range, like every Python
mutation site, which always holds a live object). -/
def setNode (t : RequestTree) (i : Nat) (nd : RequestNode) : RequestTree :=
  { t with nodes := t.nodes.set i nd }

/-- `RequestNode.block` from `source/traffic_parser/request_node.py`.
With `transitive_block=True` the node is blocked only if it is not `repeated`
and every parent is already blocked (vacuously true for a parentless node);
without it the block is unconditional. -/
def blockNode (t : RequestTree) (i : Nat) (transitiveBlock : Bool := false) :
    RequestTree :=
  if transitiveBlock then
    let shouldBeBlocked := (getNode t i).parents.all fun p => (getNode t p).blocked
    if ¬ (getNode t i).repeated ∧ shouldBeBlocked then
      setNode t i { getNode t i with blocked := true }
    else t
  else
    setNode t i { getNode t i with blocked := true }

/-- `node.repeated = True` assignment. -/
def setRepeated (t : RequestTree) (i : Nat) : RequestTree :=
  setNode t i { getNode t i with repeated := true }

/-! ### Blocking projections (`source/analysis_engine/analysis_utils.py`) -/

/-- The body of the outer loop of `get_directly_blocked_tree`: mark every
node found for one blocked resource. -/
def blockFoundNodes (t : RequestTree) (resource : String) : RequestTree :=
  (findNodes t t.nodes.length t.rootId resource).foldl
    (fun t node => blockNode t node) t

/-- `get_directly_blocked_tree`: mark every node matching the block list. -/
def getDirectlyBlockedTree (t : RequestTree) (blockedResources : List String) :
    RequestTree :=
  blockedResources.foldl blockFoundNodes t

/-- The body of the inner loop of `get_transitively_blocked_tree` for one
found node: block it directly, collect its per-path descendants, mark them
all repeated when the found node is repeated, then block each one with
`transitive_block=True`. -/
def transitiveBlockPass (t : RequestTree) (parentNode : Nat) : RequestTree :=
  let t := blockNode t parentNode
  let childNodes := getAllChildrenNodes t t.nodes.length parentNode
  let t :=
    if (getNode t parentNode).repeated then
      childNodes.foldl (fun t node => setRepeated t node) t
    else t
  childNodes.foldl (fun t node => blockNode t node true) t

/-- The body of the outer loop of `get_transitively_blocked_tree` for one
blocked resource. -/
def transitiveBlockResource (t : RequestTree) (resource : String) : RequestTree :=
  (findNodes t t.nodes.length t.rootId resource).foldl transitiveBlockPass t

/-- `get_transitively_blocked_tree`: mark every matching node, then walk its
per-path descendants; a repeated match first marks all its descendants
repeated; each descendant is then blocked with `transitive_block=True`. -/
def getTransitivelyBlockedTree (t : RequestTree)
    (blockedResources : List String) : RequestTree :=
  blockedResources.foldl transitiveBlockResource t

/-! ### Subtree partitioner (`source/analysis_engine/experimental_analysis.py`) -/

/-- The `while` loop of `get_first_level_with_multiple_children`: descend
single-child levels, recording a `full_block` status (and a root block) at
any blocked level, until a level with at least two children or a leaf. -/
def getFirstLevelLoop (t : RequestTree) :
    Nat → List Nat → String → Bool → String × List Nat × Bool
  | 0, _, status, rootBlock => (status, [], rootBlock)
  | fuel + 1, currentLevelChildren, status, rootBlock =>
    match currentLevelChildren with
    | [] => (status, [], rootBlock)
    | currentLevel :: _ =>
      if 2 ≤ currentLevelChildren.length then (status, currentLevelChildren, rootBlock)
      else
        let status := if (getNode t currentLevel).blocked then "full_block" else status
        let rootBlock :=
          if (getNode t currentLevel).blocked ∧ (getNode t currentLevel).rootNode then
            true
          else rootBlock
        getFirstLevelLoop t fuel (getNode t currentLevel).children status rootBlock

/-- `get_first_level_with_multiple_children`. -/
def getFirstLevelWithMultipleChildren (t : RequestTree) (fuel : Nat) :
    String × List Nat × Bool :=
  let root := t.rootId
  let status := if (getNode t root).blocked then "full_block" else ""
  let rootBlock := if (getNode t root).blocked then (getNode t root).rootNode else false
  let (status, children, rootBlock) :=
    getFirstLevelLoop t fuel (getNode t root).children status rootBlock
  (if status = "" then "no_block" else status, children, rootBlock)

/-- `subtree_blocked_status`: `partial_block` iff some strict descendant of
the starting node is blocked. -/
def subtreeBlockedStatus (t : RequestTree) : Nat → Nat → String
  | 0, _ => "no_block"
  | fuel + 1, startingNode =>
    if (getNode t startingNode).children.any (fun child =>
        (getNode t child).blocked || subtreeBlockedStatus t fuel child == "partial_block")
    then "partial_block"
    else "no_block"

/-- The body of the per-sibling loop of `analyse_subtrees_blocking`: add the
starting point to the (fully, partially, not-blocked) counters. -/
def classifySubtree (t : RequestTree) (fuel : Nat) (acc : Int × Int × Int)
    (startingPoint : Nat) : Int × Int × Int :=
  if (getNode t startingPoint).blocked then (acc.1 + 1, acc.2.1, acc.2.2)
  else if subtreeBlockedStatus t fuel startingPoint = "partial_block" then
    (acc.1, acc.2.1 + 1, acc.2.2)
  else (acc.1, acc.2.1, acc.2.2 + 1)

/-- `analyse_subtrees_blocking`, returning the five-key result dict. -/
def analyseSubtreesBlocking (t : RequestTree) (fuel : Nat) : List (String × Int) :=
  let (status, startingPoints, rootBlock) := getFirstLevelWithMultipleChildren t fuel
  let totalTrees : Int := startingPoints.length
  if status = "full_block" then
    [("subtrees_fully_blocked", totalTrees),
     ("subtrees_partially_blocked", 0),
     ("subtrees_not_blocked", 0),
     ("subtrees_in_total", totalTrees),
     ("trees_with_blocked_root_node", if rootBlock then 1 else 0)]
  else
    let counts := startingPoints.foldl (classifySubtree t fuel) (0, 0, 0)
    [("subtrees_fully_blocked", counts.1),
     ("subtrees_partially_blocked", counts.2.1),
     ("subtrees_not_blocked", counts.2.2),
     ("subtrees_in_total", totalTrees),
     ("trees_with_blocked_root_node", 0)]

/-- `add_subtrees`: elementwise sum of two subtree-analysis dicts; an empty
operand returns the other one; a key of the first missing from the second is
a Python `KeyError`, modelled as `none`. -/
def addSubtrees (subtrees1 subtrees2 : List (String × Int)) :
    Option (List (String × Int)) :=
  if subtrees1 = [] then some subtrees2
  else if subtrees2 = [] then some subtrees1
  else combineEntries subtrees2 (fun a b => a + b) subtrees1

/-- `add_subtrees` prints its "Error during subtree analysis! Should never
happen!" message exactly when both operands are empty; it then still falls
through to the empty-operand returns. -/
def addSubtreesPrintsError (subtrees1 subtrees2 : List (String × Int)) : Bool :=
  subtrees1 = [] && subtrees2 = []

/-- `calculate_blocked_who_brings_children`. -/
def calculateBlockedWhoBringsChildren (t : RequestTree)
    (reallyBlockedNodes : List Nat) : Int :=
  reallyBlockedNodes.foldl
    (fun acc node => if (getNode t node).children ≠ [] then acc + 1 else acc) 0

/-- `calculate_average_block_level` (exact rational arithmetic in place of the
Python float division). -/
def calculateAverageBlockLevel (t : RequestTree) (fuel : Nat) : ℚ :=
  let averageBlockLevels := blockedAtLevels t fuel t.rootId 1
  if averageBlockLevels ≠ [] then
    ((averageBlockLevels.map (fun l => (l : ℚ))).sum) / averageBlockLevels.length
  else 0

/-! ### `simulate_blocking` (`source/analysis_engine/analysis.py`) -/

/-- The per-page metrics dict returned by `simulate_blocking`. -/
structure SimulationResult where
  fpdAttemptsObserved : FpMap
  fpdAttemptsBlockedDirectly : FpMap
  fpdAttemptsBlockedTransitively : FpMap
  fpdAttemptsBlockedInTotal : FpMap
  requestsObserved : Int
  requestsBlockedDirectly : Int
  requestsBlockedInTotal : Int
  requestsBlockedTransitively : Int
  requestsBlockedThatHaveChildRequests : Int
  averageRequestBlockLevel : ℚ
  blockedSubtreesData : List (String × Int)
deriving DecidableEq

/-- `simulate_blocking`.  In Python both projections mutate the *same* tree
object, so `directly_blocked_tree` and `transitively_blocked_tree` alias one
state after line 58; every metric below is therefore computed on the final,
doubly-projected state `t2`. -/
def simulateBlocking (requestTree : RequestTree) (blockedResources : List String) :
    Option SimulationResult := do
  let n := requestTree.nodes.length
  let totalRequested : Int := (getAllRequests requestTree n requestTree.rootId).length
  let totalFpdAttemptsV ← totalFpdAttempts requestTree n requestTree.rootId
  let t1 := getDirectlyBlockedTree requestTree blockedResources
  let t2 := getTransitivelyBlockedTree t1 blockedResources
  let totalBlockedV : Int := totalBlocked t2 n t2.rootId
  let reallyBlockedNodes := firstlyBlocked t2 n t2.rootId
  let directlyBlocked : Int := reallyBlockedNodes.length
  let blockedTransitively : Int := totalBlockedV - directlyBlocked
  let directFpdBlocked ← firstBlockedFpdAttempts t2 n t2.rootId
  let totalFpdBlocked ← totalBlockedFpdAttempts t2 n t2.rootId
  let transitiveFpdBlocked ← addSubstractFpAttempts totalFpdBlocked directFpdBlocked false
  let blockedSubtreesDataV := analyseSubtreesBlocking t2 n
  let averageBlockLevel := calculateAverageBlockLevel t2 n
  let blockedWithChildren := calculateBlockedWhoBringsChildren t2 reallyBlockedNodes
  pure
    { fpdAttemptsObserved := totalFpdAttemptsV
      fpdAttemptsBlockedDirectly := directFpdBlocked
      fpdAttemptsBlockedTransitively := transitiveFpdBlocked
      fpdAttemptsBlockedInTotal := totalFpdBlocked
      requestsObserved := totalRequested
      requestsBlockedDirectly := directlyBlocked
      requestsBlockedInTotal := totalBlockedV
      requestsBlockedTransitively := blockedTransitively
      requestsBlockedThatHaveChildRequests := blockedWithChildren
      averageRequestBlockLevel := averageBlockLevel
      blockedSubtreesData := blockedSubtreesDataV }

/-! ### IEEE-754 binary64 arithmetic

`average_request_block_level` is a Python float.  A binary64 value is
modelled as an integer pair `⟨m, e⟩` denoting `m * 2^e` exactly, kept in the
canonical form `m = 0 ∧ e = 0` or `2^52 ≤ |m| < 2^53`, so that structural
equality is value equality; an operation computes the exact rational result
and rounds it to 53 significant bits (round to nearest, ties to even),
which is what the hardware CPython runs on does for results in the binary64
normal range — the only ones these metrics take. -/

/-- Floor of the base-2 logarithm of a positive natural (fuel-recursive so
that it evaluates by kernel reduction; `fuel = n` always suffices). -/
def natLog2 : Nat → Nat → Nat
  | 0, _ => 0
  | fuel + 1, n => if 2 ≤ n then natLog2 fuel (n / 2) + 1 else 0

/-- A binary64 value `m * 2^e`. -/
structure F64 where
  m : Int
  e : Int
deriving DecidableEq

/-- The float `0.0`. -/
def f64Zero : F64 := ⟨0, 0⟩

/-- The exact rational value of a binary64 pair. -/
def f64Val (x : F64) : ℚ := (x.m : ℚ) * (2 : ℚ) ^ x.e

/-- Round the exact fraction `a / b` (`b > 0`) to the nearest binary64 value,
ties to even: take `fl = floor (log2 (|a| / b))`, scale `|a| / b` into
`[2^52, 2^53)`, round the scaled fraction to an integer (a carry to `2^53`
renormalises), and reattach the sign. -/
def roundF64 (a : Int) (b : Int) : F64 :=
  if a = 0 then f64Zero
  else
    let s : Int := if a < 0 then -1 else 1
    let an := a.natAbs
    let bn := b.natAbs
    let e0 : Int := (natLog2 an an : Int) - (natLog2 bn bn : Int)
    let lt : Bool :=
      if 0 ≤ e0 then an < bn * 2 ^ e0.toNat
      else an * 2 ^ (-e0).toNat < bn
    let fl : Int := if lt then e0 - 1 else e0
    let e : Int := fl - 52
    let num2 := if e ≤ 0 then an * 2 ^ (-e).toNat else an
    let den2 := if e ≤ 0 then bn else bn * 2 ^ e.toNat
    let n := num2 / den2
    let r := num2 % den2
    let n2 :=
      if 2 * r < den2 then n
      else if den2 < 2 * r then n + 1
      else if n % 2 = 0 then n else n + 1
    if n2 = 2 ^ 53 then ⟨s * 2 ^ 52, e + 1⟩ else ⟨s * (n2 : Int), e⟩

/-- Binary64 addition (CPython float `+`): align the exponents, add the
significands exactly, round once. -/
def f64Add (x y : F64) : F64 :=
  let emin := min x.e y.e
  let a := x.m * 2 ^ (x.e - emin).toNat + y.m * 2 ^ (y.e - emin).toNat
  if 0 ≤ emin then roundF64 (a * 2 ^ emin.toNat) 1
  else roundF64 a (2 ^ (-emin).toNat)

/-- The float of a whole number (exact for the magnitudes that occur). -/
def f64OfInt (n : Int) : F64 := roundF64 n 1

/-! ### Metrics aggregator (`compute_sums_count_resources`)

The per-page dict of `simulate_blocking` has a fixed key schema, embedded as
the structure `PageResult`; `total_results` of `parse_partial_results`
becomes `TotalResults`, one `(n_of_results, sum)` entry per metric
(`average` is only produced later by `compute_averages`). -/

/-- One per-page metric dict (fixed metric-name schema).
`averageRequestBlockLevel` is the page's float, a binary64 value. -/
structure PageResult where
  fpdAttemptsObserved : FpMap
  fpdAttemptsBlockedDirectly : FpMap
  fpdAttemptsBlockedTransitively : FpMap
  fpdAttemptsBlockedInTotal : FpMap
  requestsObserved : Int
  requestsBlockedDirectly : Int
  requestsBlockedInTotal : Int
  requestsBlockedTransitively : Int
  requestsBlockedThatHaveChildRequests : Int
  averageRequestBlockLevel : F64
  blockedSubtreesData : List (String × Int)
deriving DecidableEq

/-- A `{n_of_results, sum}` record for an integer-valued metric. -/
structure ScalarEntry where
  nOfResults : Int
  sum : Int
deriving DecidableEq

/-- A `{n_of_results, sum}` record for the float-valued block-level metric:
`sum` is the running binary64 float, accumulated with `f64Add` (Python
starts it at the int `0`, which the first float `+=` absorbs exactly). -/
structure RatEntry where
  nOfResults : Int
  sum : F64
deriving DecidableEq

/-- A `{n_of_results, sum}` record for a map-valued metric. -/
structure MapEntry where
  nOfResults : Int
  sum : List (String × Int)
deriving DecidableEq

/-- The accumulated `total_results` dict. -/
structure TotalResults where
  fpdAttemptsObserved : MapEntry
  fpdAttemptsBlockedDirectly : MapEntry
  fpdAttemptsBlockedTransitively : MapEntry
  fpdAttemptsBlockedInTotal : MapEntry
  requestsObserved : ScalarEntry
  requestsBlockedDirectly : ScalarEntry
  requestsBlockedInTotal : ScalarEntry
  requestsBlockedTransitively : ScalarEntry
  requestsBlockedThatHaveChildRequests : ScalarEntry
  averageRequestBlockLevel : RatEntry
  blockedSubtreesData : MapEntry
deriving DecidableEq

/-- The initial `total_results` built in `parse_partial_results`. -/
def initialTotalResults : TotalResults :=
  { fpdAttemptsObserved := ⟨0, []⟩
    fpdAttemptsBlockedDirectly := ⟨0, []⟩
    fpdAttemptsBlockedTransitively := ⟨0, []⟩
    fpdAttemptsBlockedInTotal := ⟨0, []⟩
    requestsObserved := ⟨0, 0⟩
    requestsBlockedDirectly := ⟨0, 0⟩
    requestsBlockedInTotal := ⟨0, 0⟩
    requestsBlockedTransitively := ⟨0, 0⟩
    requestsBlockedThatHaveChildRequests := ⟨0, 0⟩
    averageRequestBlockLevel := ⟨0, f64Zero⟩
    blockedSubtreesData := ⟨0, []⟩ }

/-- The body of the outer loop of `compute_sums_count_resources`: fold one
page result into `total_results`.  `fpd` metrics combine through
`add_substract_fp_attempts`, `blocked_subtrees_data` through `add_subtrees`,
scalars through `+=` (exact for Python ints, binary64 `f64Add` for the float
block-level sum); `average_request_block_level` first decrements
`n_of_results` when the page reports `0` (no blocking); every entry then
counts the record.  A failed dict combination is the Python `TypeError` /
`KeyError`, modelled as `none`. -/
def processPageResult (totalResults : TotalResults) (result : PageResult) :
    Option TotalResults := do
  let fpdObservedSum ←
    addSubstractFpAttempts totalResults.fpdAttemptsObserved.sum result.fpdAttemptsObserved
  let fpdDirectSum ←
    addSubstractFpAttempts totalResults.fpdAttemptsBlockedDirectly.sum
      result.fpdAttemptsBlockedDirectly
  let fpdTransitiveSum ←
    addSubstractFpAttempts totalResults.fpdAttemptsBlockedTransitively.sum
      result.fpdAttemptsBlockedTransitively
  let fpdTotalSum ←
    addSubstractFpAttempts totalResults.fpdAttemptsBlockedInTotal.sum
      result.fpdAttemptsBlockedInTotal
  let subtreesSum ←
    addSubtrees totalResults.blockedSubtreesData.sum result.blockedSubtreesData
  let avgN :=
    if result.averageRequestBlockLevel = f64Zero then
      totalResults.averageRequestBlockLevel.nOfResults - 1
    else totalResults.averageRequestBlockLevel.nOfResults
  pure
    { fpdAttemptsObserved :=
        ⟨totalResults.fpdAttemptsObserved.nOfResults + 1, fpdObservedSum⟩
      fpdAttemptsBlockedDirectly :=
        ⟨totalResults.fpdAttemptsBlockedDirectly.nOfResults + 1, fpdDirectSum⟩
      fpdAttemptsBlockedTransitively :=
        ⟨totalResults.fpdAttemptsBlockedTransitively.nOfResults + 1, fpdTransitiveSum⟩
      fpdAttemptsBlockedInTotal :=
        ⟨totalResults.fpdAttemptsBlockedInTotal.nOfResults + 1, fpdTotalSum⟩
      requestsObserved :=
        ⟨totalResults.requestsObserved.nOfResults + 1,
         totalResults.requestsObserved.sum + result.requestsObserved⟩
      requestsBlockedDirectly :=
        ⟨totalResults.requestsBlockedDirectly.nOfResults + 1,
         totalResults.requestsBlockedDirectly.sum + result.requestsBlockedDirectly⟩
      requestsBlockedInTotal :=
        ⟨totalResults.requestsBlockedInTotal.nOfResults + 1,
         totalResults.requestsBlockedInTotal.sum + result.requestsBlockedInTotal⟩
      requestsBlockedTransitively :=
        ⟨totalResults.requestsBlockedTransitively.nOfResults + 1,
         totalResults.requestsBlockedTransitively.sum + result.requestsBlockedTransitively⟩
      requestsBlockedThatHaveChildRequests :=
        ⟨totalResults.requestsBlockedThatHaveChildRequests.nOfResults + 1,
         totalResults.requestsBlockedThatHaveChildRequests.sum +
           result.requestsBlockedThatHaveChildRequests⟩
      averageRequestBlockLevel :=
        ⟨avgN + 1,
         f64Add totalResults.averageRequestBlockLevel.sum
           result.averageRequestBlockLevel⟩
      blockedSubtreesData :=
        ⟨totalResults.blockedSubtreesData.nOfResults + 1, subtreesSum⟩ }

/-- `compute_sums_count_resources`: fold all page results into
`total_results`. -/
def computeSumsCountResources (results : List PageResult)
    (totalResults : TotalResults) : Option TotalResults :=
  results.foldlM processPageResult totalResults

/-! ### Schema and combination statements for the aggregator claims -/

/-- A map-valued metric respects the fixed group schema `K`: its keys are
exactly `K` (in order) or it is empty. -/
def entryKeysOk (K : List String) (m : List (String × Int)) : Bool :=
  decide (fpKeys m = K) || decide (m = [])

/-- A per-page result uses group schema `K` for its four FPD maps and key
schema `S` for its subtree data. -/
def pageSchemaOk (K S : List String) (r : PageResult) : Bool :=
  entryKeysOk K r.fpdAttemptsObserved &&
  entryKeysOk K r.fpdAttemptsBlockedDirectly &&
  entryKeysOk K r.fpdAttemptsBlockedTransitively &&
  entryKeysOk K r.fpdAttemptsBlockedInTotal &&
  entryKeysOk S r.blockedSubtreesData

def resultsSchemaOk (K S : List String) (l : List PageResult) : Bool :=
  l.all (pageSchemaOk K S)

/-- The accumulated sums respect the same schemas. -/
def totalsSchemaOk (K S : List String) (tot : TotalResults) : Bool :=
  entryKeysOk K tot.fpdAttemptsObserved.sum &&
  entryKeysOk K tot.fpdAttemptsBlockedDirectly.sum &&
  entryKeysOk K tot.fpdAttemptsBlockedTransitively.sum &&
  entryKeysOk K tot.fpdAttemptsBlockedInTotal.sum &&
  entryKeysOk S tot.blockedSubtreesData.sum

/-- `T` differs from `tot` by exactly the contribution of the page list `l`:
every `n_of_results` grows by the record count (with the zero-block-level
exemption for the average-level metric) and every `sum` grows by the summed
page values — map-valued metrics pointwise, the float block-level sum by the
left-to-right `f64Add` fold that the Python `+=` performs. -/
def AggDelta (tot T : TotalResults) (l : List PageResult) : Prop :=
  (T.requestsObserved.nOfResults = tot.requestsObserved.nOfResults + l.length ∧
    T.requestsObserved.sum = tot.requestsObserved.sum +
      (l.map (fun r => r.requestsObserved)).sum) ∧
  (T.requestsBlockedDirectly.nOfResults =
      tot.requestsBlockedDirectly.nOfResults + l.length ∧
    T.requestsBlockedDirectly.sum = tot.requestsBlockedDirectly.sum +
      (l.map (fun r => r.requestsBlockedDirectly)).sum) ∧
  (T.requestsBlockedInTotal.nOfResults =
      tot.requestsBlockedInTotal.nOfResults + l.length ∧
    T.requestsBlockedInTotal.sum = tot.requestsBlockedInTotal.sum +
      (l.map (fun r => r.requestsBlockedInTotal)).sum) ∧
  (T.requestsBlockedTransitively.nOfResults =
      tot.requestsBlockedTransitively.nOfResults + l.length ∧
    T.requestsBlockedTransitively.sum = tot.requestsBlockedTransitively.sum +
      (l.map (fun r => r.requestsBlockedTransitively)).sum) ∧
  (T.requestsBlockedThatHaveChildRequests.nOfResults =
      tot.requestsBlockedThatHaveChildRequests.nOfResults + l.length ∧
    T.requestsBlockedThatHaveChildRequests.sum =
      tot.requestsBlockedThatHaveChildRequests.sum +
      (l.map (fun r => r.requestsBlockedThatHaveChildRequests)).sum) ∧
  (T.averageRequestBlockLevel.nOfResults =
      tot.averageRequestBlockLevel.nOfResults +
      (l.map (fun r =>
        if r.averageRequestBlockLevel = f64Zero then (0 : Int) else 1)).sum ∧
    T.averageRequestBlockLevel.sum =
      l.foldl (fun acc r => f64Add acc r.averageRequestBlockLevel)
        tot.averageRequestBlockLevel.sum) ∧
  (T.fpdAttemptsObserved.nOfResults =
      tot.fpdAttemptsObserved.nOfResults + l.length ∧
    ∀ k, fpGetD T.fpdAttemptsObserved.sum k 0 =
      fpGetD tot.fpdAttemptsObserved.sum k 0 +
      (l.map (fun r => fpGetD r.fpdAttemptsObserved k 0)).sum) ∧
  (T.fpdAttemptsBlockedDirectly.nOfResults =
      tot.fpdAttemptsBlockedDirectly.nOfResults + l.length ∧
    ∀ k, fpGetD T.fpdAttemptsBlockedDirectly.sum k 0 =
      fpGetD tot.fpdAttemptsBlockedDirectly.sum k 0 +
      (l.map (fun r => fpGetD r.fpdAttemptsBlockedDirectly k 0)).sum) ∧
  (T.fpdAttemptsBlockedTransitively.nOfResults =
      tot.fpdAttemptsBlockedTransitively.nOfResults + l.length ∧
    ∀ k, fpGetD T.fpdAttemptsBlockedTransitively.sum k 0 =
      fpGetD tot.fpdAttemptsBlockedTransitively.sum k 0 +
      (l.map (fun r => fpGetD r.fpdAttemptsBlockedTransitively k 0)).sum) ∧
  (T.fpdAttemptsBlockedInTotal.nOfResults =
      tot.fpdAttemptsBlockedInTotal.nOfResults + l.length ∧
    ∀ k, fpGetD T.fpdAttemptsBlockedInTotal.sum k 0 =
      fpGetD tot.fpdAttemptsBlockedInTotal.sum k 0 +
      (l.map (fun r => fpGetD r.fpdAttemptsBlockedInTotal k 0)).sum) ∧
  (T.blockedSubtreesData.nOfResults =
      tot.blockedSubtreesData.nOfResults + l.length ∧
    ∀ k, fpGetD T.blockedSubtreesData.sum k 0 =
      fpGetD tot.blockedSubtreesData.sum k 0 +
      (l.map (fun r => fpGetD r.blockedSubtreesData k 0)).sum)

/-- `W`'s `sum` and `n_of_results` fields are, metric by metric, the
elementwise sums of `T1`'s and `T2`'s — for every integer-valued metric and
for every `n_of_results` count, the float metric's included.  The float
`sum` itself is excluded: binary64 addition is not associative. -/
def AggCombines (T1 T2 W : TotalResults) : Prop :=
  (W.requestsObserved.nOfResults =
      T1.requestsObserved.nOfResults + T2.requestsObserved.nOfResults ∧
    W.requestsObserved.sum = T1.requestsObserved.sum + T2.requestsObserved.sum) ∧
  (W.requestsBlockedDirectly.nOfResults =
      T1.requestsBlockedDirectly.nOfResults + T2.requestsBlockedDirectly.nOfResults ∧
    W.requestsBlockedDirectly.sum =
      T1.requestsBlockedDirectly.sum + T2.requestsBlockedDirectly.sum) ∧
  (W.requestsBlockedInTotal.nOfResults =
      T1.requestsBlockedInTotal.nOfResults + T2.requestsBlockedInTotal.nOfResults ∧
    W.requestsBlockedInTotal.sum =
      T1.requestsBlockedInTotal.sum + T2.requestsBlockedInTotal.sum) ∧
  (W.requestsBlockedTransitively.nOfResults =
      T1.requestsBlockedTransitively.nOfResults +
        T2.requestsBlockedTransitively.nOfResults ∧
    W.requestsBlockedTransitively.sum =
      T1.requestsBlockedTransitively.sum + T2.requestsBlockedTransitively.sum) ∧
  (W.requestsBlockedThatHaveChildRequests.nOfResults =
      T1.requestsBlockedThatHaveChildRequests.nOfResults +
        T2.requestsBlockedThatHaveChildRequests.nOfResults ∧
    W.requestsBlockedThatHaveChildRequests.sum =
      T1.requestsBlockedThatHaveChildRequests.sum +
        T2.requestsBlockedThatHaveChildRequests.sum) ∧
  (W.averageRequestBlockLevel.nOfResults =
      T1.averageRequestBlockLevel.nOfResults +
        T2.averageRequestBlockLevel.nOfResults) ∧
  (W.fpdAttemptsObserved.nOfResults =
      T1.fpdAttemptsObserved.nOfResults + T2.fpdAttemptsObserved.nOfResults ∧
    ∀ k, fpGetD W.fpdAttemptsObserved.sum k 0 =
      fpGetD T1.fpdAttemptsObserved.sum k 0 +
      fpGetD T2.fpdAttemptsObserved.sum k 0) ∧
  (W.fpdAttemptsBlockedDirectly.nOfResults =
      T1.fpdAttemptsBlockedDirectly.nOfResults +
        T2.fpdAttemptsBlockedDirectly.nOfResults ∧
    ∀ k, fpGetD W.fpdAttemptsBlockedDirectly.sum k 0 =
      fpGetD T1.fpdAttemptsBlockedDirectly.sum k 0 +
      fpGetD T2.fpdAttemptsBlockedDirectly.sum k 0) ∧
  (W.fpdAttemptsBlockedTransitively.nOfResults =
      T1.fpdAttemptsBlockedTransitively.nOfResults +
        T2.fpdAttemptsBlockedTransitively.nOfResults ∧
    ∀ k, fpGetD W.fpdAttemptsBlockedTransitively.sum k 0 =
      fpGetD T1.fpdAttemptsBlockedTransitively.sum k 0 +
      fpGetD T2.fpdAttemptsBlockedTransitively.sum k 0) ∧
  (W.fpdAttemptsBlockedInTotal.nOfResults =
      T1.fpdAttemptsBlockedInTotal.nOfResults +
        T2.fpdAttemptsBlockedInTotal.nOfResults ∧
    ∀ k, fpGetD W.fpdAttemptsBlockedInTotal.sum k 0 =
      fpGetD T1.fpdAttemptsBlockedInTotal.sum k 0 +
      fpGetD T2.fpdAttemptsBlockedInTotal.sum k 0) ∧
  (W.blockedSubtreesData.nOfResults =
      T1.blockedSubtreesData.nOfResults + T2.blockedSubtreesData.nOfResults ∧
    ∀ k, fpGetD W.blockedSubtreesData.sum k 0 =
      fpGetD T1.blockedSubtreesData.sum k 0 +
      fpGetD T2.blockedSubtreesData.sum k 0)

/-- A small per-page result over group schema `["BrowserProperties"]` and
subtree schema `["subtrees_in_total"]`, for concrete aggregation checks. -/
def examplePageResult1 : PageResult :=
  { fpdAttemptsObserved := [("BrowserProperties", 2)]
    fpdAttemptsBlockedDirectly := []
    fpdAttemptsBlockedTransitively := []
    fpdAttemptsBlockedInTotal := [("BrowserProperties", 1)]
    requestsObserved := 5
    requestsBlockedDirectly := 1
    requestsBlockedInTotal := 3
    requestsBlockedTransitively := 2
    requestsBlockedThatHaveChildRequests := 1
    averageRequestBlockLevel := f64OfInt 2
    blockedSubtreesData := [("subtrees_in_total", 2)] }

/-- A second small per-page result with no blocking (zero block level). -/
def examplePageResult2 : PageResult :=
  { fpdAttemptsObserved := [("BrowserProperties", 4)]
    fpdAttemptsBlockedDirectly := [("BrowserProperties", 1)]
    fpdAttemptsBlockedTransitively := []
    fpdAttemptsBlockedInTotal := [("BrowserProperties", 1)]
    requestsObserved := 7
    requestsBlockedDirectly := 0
    requestsBlockedInTotal := 0
    requestsBlockedTransitively := 0
    requestsBlockedThatHaveChildRequests := 0
    averageRequestBlockLevel := f64Zero
    blockedSubtreesData := [("subtrees_in_total", 3)] }

/-- A page whose block-level average is the float `1.0` (one node blocked at
level 1); map-valued metrics empty. -/
def examplePageFloat1 : PageResult :=
  { fpdAttemptsObserved := []
    fpdAttemptsBlockedDirectly := []
    fpdAttemptsBlockedTransitively := []
    fpdAttemptsBlockedInTotal := []
    requestsObserved := 1
    requestsBlockedDirectly := 1
    requestsBlockedInTotal := 1
    requestsBlockedTransitively := 0
    requestsBlockedThatHaveChildRequests := 0
    averageRequestBlockLevel := f64OfInt 1
    blockedSubtreesData := [] }

/-- A page whose block-level average is the float `6.0` (one node blocked at
level 6). -/
def examplePageFloat2 : PageResult :=
  { fpdAttemptsObserved := []
    fpdAttemptsBlockedDirectly := []
    fpdAttemptsBlockedTransitively := []
    fpdAttemptsBlockedInTotal := []
    requestsObserved := 6
    requestsBlockedDirectly := 1
    requestsBlockedInTotal := 1
    requestsBlockedTransitively := 0
    requestsBlockedThatHaveChildRequests := 0
    averageRequestBlockLevel := f64OfInt 6
    blockedSubtreesData := [] }

/-- A page whose block-level average is the binary64 value of `4/3` (nodes
blocked at levels 1, 1 and 2, averaged by float division). -/
def examplePageFloat3 : PageResult :=
  { fpdAttemptsObserved := []
    fpdAttemptsBlockedDirectly := []
    fpdAttemptsBlockedTransitively := []
    fpdAttemptsBlockedInTotal := []
    requestsObserved := 3
    requestsBlockedDirectly := 3
    requestsBlockedInTotal := 3
    requestsBlockedTransitively := 0
    requestsBlockedThatHaveChildRequests := 0
    averageRequestBlockLevel := roundF64 4 3
    blockedSubtreesData := [] }

/-! ### Graph builder (`source/traffic_parser/create_request_trees.py`)

The builder threads the Python locals `tree` / `global` current root (both
`None` before the first root candidate) and the growing node arena through a
fold over the enumerated record list.  Every place where Python would raise
(attribute access on `None`, `add_substract_fp_attempts` type errors) is
`none`. -/

/-- Generic `dict.get` for string-keyed dicts. -/
def listGet {β : Type} (m : List (String × β)) (k : String) : Option β :=
  match m with
  | [] => none
  | (k', v) :: rest => if k' = k then some v else listGet rest k

/-- The FP attribution table `resource_url -> {group -> count}`. -/
abbrev FpTable := List (String × FpMap)

def ANONYMOUS_CALLERS : String := "<anonymous>"

/-- Python `sys.maxsize`. -/
def sysMaxsize : Int := 2 ^ 63 - 1

/-- A DevTools initiator call stack: optional parent stack plus the frame
URLs of the current stack, outermost last (as stored). -/
inductive CallStack where
  | mk (parent : Option CallStack) (callFrames : List String)

/-- `join_call_frames`: deepest parent's frames first, each stack's frames
reversed (the first frame is the final caller). -/
def joinCallFrames : CallStack → List String
  | .mk parent callFrames =>
    (match parent with
     | some p => joinCallFrames p
     | none => []) ++ callFrames.reverse

/-- A record's `initiator` object. -/
structure Initiator where
  itype : String
  url : Option String := none
  stack : Option CallStack := none

/-- One observed network-event record. -/
structure TrafficRecord where
  requested_for : String
  requested_resource : String
  time : Option Int := none
  initiator : Initiator

/-- The builder's mutable state: the arena plus the Python locals `tree`
(represented by the id of its root) and `global`/current root node. -/
structure BuildState where
  nodes : List RequestNode
  treeRootId : Option Nat
  currentRootId : Option Nat

/-- `RequestNode.add_child` (with the `add_parent` call it triggers; the
re-entrant `add_child` inside `add_parent` finds the child present and
returns, so the net effect is one child link and one parent link).  A child
whose resource already appears among the parent's children is not added. -/
def addChildNodes (nodes : List RequestNode) (parentId childId : Nat) :
    List RequestNode :=
  let parent := nodes.getD parentId default
  let child := nodes.getD childId default
  if parent.children.any (fun c => (nodes.getD c default).resource = child.resource) then
    nodes
  else
    let nodes := nodes.set parentId { parent with children := parent.children ++ [childId] }
    let child := nodes.getD childId default
    if parentId ∈ child.parents then nodes
    else nodes.set childId { child with parents := child.parents ++ [parentId] }

/-- `tree.find_nodes(resource)` during construction; `none` is the Python
`AttributeError` of calling it on a still-`None` tree. -/
def stateFindNodes (st : BuildState) (resource : String) : Option (List Nat) :=
  st.treeRootId.map fun r =>
    findNodes ⟨st.nodes, r⟩ st.nodes.length r resource

/-- `fix_missing_parent`: attach the node under the current root. -/
def fixMissingParent (st : BuildState) (nodeId : Nat) : Option BuildState := do
  let currentRoot ← st.currentRootId
  pure { st with nodes := addChildNodes st.nodes currentRoot nodeId }

/-- `add_new_root_node`: create the tree on the very first record; later
root candidates either become plain children of the current root (resource
already in the tree; skipped entirely in lower-bound mode) or replace the
current root, moving the `<anonymous>` FP attempts from the old root to the
new one. -/
def addNewRootNode (st : BuildState) (resourceCounter nodeId : Nat)
    (fpAttempts : FpTable) (lowerBoundTrees : Bool) : Option BuildState :=
  let anonymousAttempts := (listGet fpAttempts ANONYMOUS_CALLERS).getD []
  if resourceCounter = 0 then do
    let node := st.nodes.getD nodeId default
    let newTotal ← addSubstractFpAttempts node.fpAttempts anonymousAttempts
    pure { st with
      nodes := st.nodes.set nodeId { node with rootNode := true, fpAttempts := newTotal }
      treeRootId := some nodeId
      currentRootId := some nodeId }
  else do
    let found ← stateFindNodes st (st.nodes.getD nodeId default).resource
    let currentRoot ← st.currentRootId
    if found ≠ [] then
      if lowerBoundTrees then pure st
      else
        let nodes := addChildNodes st.nodes currentRoot nodeId
        let node := nodes.getD nodeId default
        pure { st with nodes := nodes.set nodeId { node with fpAttempts := [] } }
    else do
      let nodes := addChildNodes st.nodes currentRoot nodeId
      let node := nodes.getD nodeId default
      let nodes := nodes.set nodeId { node with rootNode := true }
      let previousRoot := nodes.getD currentRoot default
      let previousRootFp ←
        addSubstractFpAttempts previousRoot.fpAttempts anonymousAttempts false
      let nodes := nodes.set currentRoot { previousRoot with fpAttempts := previousRootFp }
      let newRoot := nodes.getD nodeId default
      let withAnonymousCallers ←
        addSubstractFpAttempts newRoot.fpAttempts anonymousAttempts
      let nodes := nodes.set nodeId { newRoot with fpAttempts := withAnonymousCallers }
      pure { st with nodes := nodes, currentRootId := some nodeId }

/-- `assign_direct_parent`: skip preflights; attach under every node matching
`initiator.url`, falling back to the current root when none matches. -/
def assignDirectParent (record : TrafficRecord) (st : BuildState) (nodeId : Nat) :
    Option BuildState :=
  if record.initiator.itype = "preflight" then pure st
  else do
    let parentNodes ← stateFindNodes st ((record.initiator.url).getD "")
    if parentNodes = [] then fixMissingParent st nodeId
    else
      pure { st with
        nodes := parentNodes.foldl (fun ns p => addChildNodes ns p nodeId) st.nodes }

/-- `assign_parent_from_callstack`: flatten the stack, append the resource,
drop empty and `chrome-extension` frames; the next-to-last survivor is the
parent (falling back to the current root if unknown); a stack that collapses
to just the resource attaches under the current root. -/
def assignParentFromCallstack (currentResource : String) (stack : CallStack)
    (st : BuildState) (nodeId : Nat) : Option BuildState := do
  let calls := joinCallFrames stack ++ [currentResource]
  let calls := calls.filter (fun x => x ≠ "" ∧ ¬ x.startsWith "chrome-extension")
  let lastTwoCalls := calls.drop (calls.length - 2)
  let st1 ←
    match lastTwoCalls with
    | [parentUrl, _] => do
        let parentNodes ← stateFindNodes st parentUrl
        let st := { st with
          nodes := parentNodes.foldl (fun ns p => addChildNodes ns p nodeId) st.nodes }
        if parentNodes = [] then fixMissingParent st nodeId
        else pure st
    | _ => pure st
  if calls.length = 1 then do
    let currentRoot ← st1.currentRootId
    pure { st1 with nodes := addChildNodes st1.nodes currentRoot nodeId }
  else pure st1

/-- The loop body of `reconstruct_tree` for the record at index
`resourceNumber`. -/
def processRecord (lowerBoundTrees : Bool) (fpAttempts : FpTable)
    (st : BuildState) (resourceNumber : Nat) (record : TrafficRecord) :
    Option BuildState :=
  let currentResource := record.requested_resource
  let time := record.time.getD sysMaxsize
  let resourceFpAttempts := (listGet fpAttempts currentResource).getD []
  let nodeId := st.nodes.length
  let st := { st with
    nodes := st.nodes ++
      [{ time := time, resource := currentResource, fpAttempts := resourceFpAttempts,
         children := [], parents := [] }] }
  if record.requested_for = currentResource ∧ record.initiator.itype = "other" then
    if record.initiator.url = none then
      addNewRootNode st resourceNumber nodeId fpAttempts lowerBoundTrees
    else pure st
  else do
    let existingNodes ← stateFindNodes st currentResource
    let st :=
      if existingNodes ≠ [] then
        { st with nodes :=
            st.nodes.set nodeId { st.nodes.getD nodeId default with fpAttempts := [] } }
      else st
    match lowerBoundTrees, existingNodes with
    | true, e :: _ =>
      pure { st with nodes :=
          st.nodes.set e { st.nodes.getD e default with repeated := true } }
    | _, _ =>
      if record.initiator.url ≠ none then assignDirectParent record st nodeId
      else
        match record.initiator.stack with
        | some stack => assignParentFromCallstack currentResource stack st nodeId
        | none => do
            let currentRoot ← st.currentRootId
            pure { st with nodes := addChildNodes st.nodes currentRoot nodeId }

/-- `reconstruct_tree`.  The outer `Option` is an uncaught Python exception;
the inner one is the function's normal return value, which is `None` when no
record ever created a tree. -/
def reconstructTree (observedTraffic : List TrafficRecord) (fpAttempts : FpTable)
    (lowerBoundTrees : Bool) : Option (Option RequestTree) :=
  (observedTraffic.enum.foldlM
      (fun st p => processRecord lowerBoundTrees fpAttempts st p.1 p.2)
      ⟨[], none, none⟩).map
    fun st => st.treeRootId.map fun r => ⟨st.nodes, r⟩

/-! ### Builder well-formedness for the robustness claim -/

/-- A record is a root candidate: `requested_for == requested_resource`,
initiator type `"other"`, and no `initiator.url`. -/
def isRootCandidate (r : TrafficRecord) : Bool :=
  decide (r.requested_for = r.requested_resource) &&
  decide (r.initiator.itype = "other") && decide (r.initiator.url = none)

/-- Every FP map of the attribution table (the `<anonymous>` entry included)
draws its keys from the one fixed group schema `K` (or is empty). -/
def fpTableOk (K : List String) (fp : FpTable) : Bool :=
  fp.all (fun p => entryKeysOk K p.2)

/-- Every node's FP map respects the group schema. -/
def NodesFpOk (K : List String) (nodes : List RequestNode) : Prop :=
  ∀ i, entryKeysOk K ((nodes.getD i default).fpAttempts) = true

/-- The builder-state invariant that holds from the first root candidate on:
the tree and the current root exist and all FP maps respect the schema. -/
def BuildInv (K : List String) (st : BuildState) : Prop :=
  st.treeRootId.isSome = true ∧ st.currentRootId.isSome = true ∧
    NodesFpOk K st.nodes

/-! ### Concrete example trees -/

/-- The spec's end-to-end example tree `A -> [B -> [C, D], E -> [F]]`
(ids 0..5 in breadth order A, B, C, D, E, F). -/
def exampleTree : RequestTree :=
  ⟨[{ time := 0, resource := "A", fpAttempts := [], children := [1, 4], parents := [],
      rootNode := true },
    { time := 1, resource := "B", fpAttempts := [], children := [2, 3], parents := [0] },
    { time := 2, resource := "C", fpAttempts := [], children := [], parents := [1] },
    { time := 3, resource := "D", fpAttempts := [], children := [], parents := [1] },
    { time := 4, resource := "E", fpAttempts := [], children := [5], parents := [0] },
    { time := 5, resource := "F", fpAttempts := [], children := [], parents := [4] }], 0⟩

/-- The spec's multi-parent example: root `A` with children `B` and `E`, and
`C` a child of both `B` and `E` (ids 0, 1, 2, 3). -/
def multiParentTree : RequestTree :=
  ⟨[{ time := 0, resource := "A", fpAttempts := [], children := [1, 2], parents := [],
      rootNode := true },
    { time := 1, resource := "B", fpAttempts := [], children := [3], parents := [0] },
    { time := 2, resource := "E", fpAttempts := [], children := [3], parents := [0] },
    { time := 3, resource := "C", fpAttempts := [], children := [], parents := [1, 2] }], 0⟩

/-- A diamond with a blocked sink: root `A` with children `B` and `E`, and a
blocked `C` (carrying one FP attempt) reachable from both, hence reachable
along two distinct root paths. -/
def diamondBlockedTree : RequestTree :=
  ⟨[{ time := 0, resource := "A", fpAttempts := [], children := [1, 2], parents := [],
      rootNode := true },
    { time := 1, resource := "B", fpAttempts := [], children := [3], parents := [0] },
    { time := 2, resource := "E", fpAttempts := [], children := [3], parents := [0] },
    { time := 3, resource := "C", fpAttempts := [("BrowserProperties", 1)], children := [],
      parents := [1, 2], blocked := true }], 0⟩

/-- Specification-side measure for the per-path counting claim: the number
of distinct child-edge paths from `i` to `j`, with the same fuel semantics as
the traversals. -/
def pathsCount (t : RequestTree) : Nat → Nat → Nat → Nat
  | 0, _, _ => 0
  | fuel + 1, i, j =>
    (if i = j then 1 else 0) +
      ((getNode t i).children.map (fun c => pathsCount t fuel c j)).sum

/-- A two-node chain `A -> B` whose child `B` carries the `repeated` flag
(as lower-bound tree construction sets it). -/
def repeatedExampleTree : RequestTree :=
  ⟨[{ time := 0, resource := "A", fpAttempts := [], children := [1], parents := [],
      rootNode := true },
    { time := 1, resource := "B", fpAttempts := [], children := [], parents := [0],
      repeated := true }], 0⟩

/-! ### Well-formedness of builder-produced trees

Decidable (Bool-valued) well-formedness checks.  Trees produced by
`reconstruct_tree` satisfy them: nodes are created in record order and a
child link always goes from an already-existing node to the newly appended
one, the first root never receives a parent, and parent links mirror child
links (`add_child` / `add_parent`). -/

/-- Valid root; every child edge goes from a smaller to a larger valid
index. -/
def wfEdges (t : RequestTree) : Bool :=
  decide (t.rootId < t.nodes.length) &&
  (List.range t.nodes.length).all fun i =>
    (getNode t i).children.all fun c =>
      decide (i < c) && decide (c < t.nodes.length)

/-- Every parent index is a valid index. -/
def wfParentsValid (t : RequestTree) : Bool :=
  (List.range t.nodes.length).all fun i =>
    (getNode t i).parents.all fun p => decide (p < t.nodes.length)

/-- Child links and parent links mirror each other. -/
def wfParentChild (t : RequestTree) : Bool :=
  (List.range t.nodes.length).all fun i =>
    (List.range t.nodes.length).all fun j =>
      decide ((j ∈ (getNode t i).children) ↔ (i ∈ (getNode t j).parents))

/-- The designated root has no parents. -/
def wfRootParentless (t : RequestTree) : Bool :=
  decide ((getNode t t.rootId).parents = [])

/-- No node carries the `repeated` flag (upper-bound trees). -/
def wfNoRepeated (t : RequestTree) : Bool :=
  (List.range t.nodes.length).all fun i => !(getNode t i).repeated

/-- Every node has at most one parent (a proper tree). -/
def wfSingleParent (t : RequestTree) : Bool :=
  (List.range t.nodes.length).all fun i =>
    decide ((getNode t i).parents.length ≤ 1)

/-! ### Relations between tree states used by the pass proofs -/

/-- `t'` has the same arena skeleton as `t`: same length, root, and per-node
resource, children, parents, FP attempts — only the mutable `blocked` /
`repeated` flags may differ.  All blocking passes preserve this. -/
def StructPreserved (t t' : RequestTree) : Prop :=
  t'.nodes.length = t.nodes.length ∧ t'.rootId = t.rootId ∧
  ∀ j, (getNode t' j).resource = (getNode t j).resource ∧
    (getNode t' j).children = (getNode t j).children ∧
    (getNode t' j).parents = (getNode t j).parents ∧
    (getNode t' j).fpAttempts = (getNode t j).fpAttempts

/-- `blocked` flags only ever turn on between `t` and `t'`. -/
def BlockedMono (t t' : RequestTree) : Prop :=
  ∀ j, (getNode t j).blocked = true → (getNode t' j).blocked = true

/-- `repeated` flags only ever turn on between `t` and `t'`. -/
def RepeatedMono (t t' : RequestTree) : Prop :=
  ∀ j, (getNode t j).repeated = true → (getNode t' j).repeated = true

/-- Node `i` is matched directly by the block list: some blocked resource
finds it via `find_nodes` on the skeleton of `t0`. -/
def DirectlyMatched (t0 : RequestTree) (blockedResources : List String)
    (i : Nat) : Prop :=
  ∃ res ∈ blockedResources,
    i ∈ findNodes t0 t0.nodes.length t0.rootId res

/-- Soundness invariant of the transitive projection relative to a baseline
`t0`: every blocked node was already blocked in `t0`, or is directly matched,
or genuinely has parents and all of them are blocked. -/
def TransSound (t0 t : RequestTree) (blockedResources : List String) : Prop :=
  ∀ i, (getNode t i).blocked = true →
    (getNode t0 i).blocked = true ∨
    DirectlyMatched t0 blockedResources i ∨
    ((getNode t0 i).parents ≠ [] ∧
      ∀ p ∈ (getNode t0 i).parents, (getNode t p).blocked = true)

/-- Soundness of the `repeated` exemption relative to a baseline `t0`: a node
that was `repeated` in `t0` is blocked only if it was already blocked in `t0`
or is directly matched (never via `transitive_block=True`). -/
def RepeatedSound (t0 t : RequestTree) (blockedResources : List String) : Prop :=
  ∀ i, (getNode t0 i).repeated = true → (getNode t i).blocked = true →
    (getNode t0 i).blocked = true ∨ DirectlyMatched t0 blockedResources i

/-- The bundled invariant carried through the transitive projection: the
skeleton is untouched, blocking is sound, and `repeated` flags only grow and
exempt their nodes from transitive blocks. -/
def TransInv (t0 t : RequestTree) (blockedResources : List String) : Prop :=
  StructPreserved t0 t ∧ TransSound t0 t blockedResources ∧
    RepeatedMono t0 t ∧ RepeatedSound t0 t blockedResources

/-- All `repeated` flags are off. -/
def NoRepeatedAll (t : RequestTree) : Prop :=
  ∀ i, (getNode t i).repeated = false

/-! ## Basic arena lemmas -/

theorem length_setNode (t : RequestTree) (i : Nat) (nd : RequestNode) :
    (setNode t i nd).nodes.length = t.nodes.length := by
  simp [setNode]

theorem rootId_setNode (t : RequestTree) (i : Nat) (nd : RequestNode) :
    (setNode t i nd).rootId = t.rootId := rfl

theorem getNode_setNode_self (t : RequestTree) (i : Nat) (nd : RequestNode)
    (h : i < t.nodes.length) : getNode (setNode t i nd) i = nd := by
  simp [getNode, setNode, List.getD_eq_getElem?_getD, List.getElem?_set_self h]

theorem getNode_setNode_ne (t : RequestTree) (i j : Nat) (nd : RequestNode)
    (h : j ≠ i) : getNode (setNode t i nd) j = getNode t j := by
  simp [getNode, setNode, List.getD_eq_getElem?_getD,
    List.getElem?_set_ne (Ne.symm h)]

/-! ## C10 -/

/-- **C10**: `block(transitive_block=True)` on a node with an empty parent
list and an unset `repeated` flag sets its `blocked` flag: the
all-parents-blocked loop is vacuously satisfied over an empty parent list. -/
theorem c10_parentless_node_vacuously_transitively_blocked
    (t : RequestTree) (i : Nat) (hi : i < t.nodes.length)
    (hpar : (getNode t i).parents = [])
    (hrep : (getNode t i).repeated = false) :
    (getNode (blockNode t i true) i).blocked = true := by
  simp [blockNode, hpar, hrep, getNode_setNode_self t i _ hi]

/-- Witness for C10 at a one-node tree. -/
theorem c10_witness :
    (getNode (blockNode
      ⟨[{ time := 0, resource := "A", fpAttempts := [], children := [],
          parents := [] }], 0⟩ 0 true) 0).blocked = true :=
  c10_parentless_node_vacuously_transitively_blocked _ 0 (by decide) (by decide)
    (by decide)

/-! ## Dict lemmas and C5 -/

theorem fpGet_isSome_iff_mem_keys (m : FpMap) (k : String) :
    (fpGet m k).isSome ↔ k ∈ fpKeys m := by
  induction m with
  | nil => simp [fpGet, fpKeys]
  | cons p rest ih =>
    by_cases h : p.1 = k
    · simp [fpGet, fpKeys, h]
    · simp [fpGet, fpKeys, h, ih]
      intro hk
      exact (h hk.symm).elim

theorem mem_of_fpGet_eq_some {m : FpMap} {k : String} {v : Int}
    (h : fpGet m k = some v) : (k, v) ∈ m := by
  induction m with
  | nil => simp [fpGet] at h
  | cons p rest ih =>
    by_cases hk : p.1 = k
    · rw [fpGet, if_pos hk] at h
      cases h
      exact List.mem_cons.2 (Or.inl (by simp [← hk]))
    · rw [fpGet, if_neg hk] at h
      exact List.mem_cons_of_mem _ (ih h)

theorem fpGet_eq_some_of_nodup {m : FpMap} {p : String × Int}
    (hnd : (fpKeys m).Nodup) (hp : p ∈ m) : fpGet m p.1 = some p.2 := by
  induction m with
  | nil => simp at hp
  | cons q rest ih =>
    rcases List.mem_cons.1 hp with rfl | hmem
    · simp [fpGet]
    · have hne : q.1 ≠ p.1 := by
        intro hcontra
        have : p.1 ∈ fpKeys rest := List.mem_map_of_mem _ hmem
        rw [← hcontra] at this
        exact (List.nodup_cons.1 hnd).1 this
      rw [fpGet, if_neg hne]
      exact ih (List.nodup_cons.1 hnd).2 hmem

/-- Python dict equality implies equal lookups. -/
theorem fpGet_eq_of_fpDictEq {a b : FpMap} (h : fpDictEq a b = true) (k : String) :
    fpGet a k = fpGet b k := by
  rw [fpDictEq, Bool.and_eq_true, List.all_eq_true, List.all_eq_true] at h
  cases hga : fpGet a k with
  | some v =>
    have := h.1 _ (mem_of_fpGet_eq_some hga)
    exact (by simpa using this : fpGet b k = some v).symm
  | none =>
    cases hgb : fpGet b k with
    | none => rfl
    | some w =>
      have := h.2 _ (mem_of_fpGet_eq_some hgb)
      simp only [beq_iff_eq] at this
      rw [hga] at this
      exact this


/-- If every key of `l` is present in `other`, the combination loop succeeds
and is elementwise. -/
theorem combineEntries_eq_map {other : List (String × Int)} {op : Int → Int → Int}
    {l : List (String × Int)} (h : ∀ p ∈ l, (fpGet other p.1).isSome) :
    combineEntries other op l =
      some (l.map (fun p => (p.1, op p.2 (fpGetD other p.1 0)))) := by
  induction l with
  | nil => rfl
  | cons p rest ih =>
    obtain ⟨w, hw⟩ := Option.isSome_iff_exists.1 (h p (by simp))
    rw [combineEntries, hw]
    simp [ih (fun q hq => h q (by simp [hq])), fpGetD, hw]

theorem fpLength_eq_of_same_support {m1 m2 : FpMap}
    (h1 : (fpKeys m1).Nodup) (h2 : (fpKeys m2).Nodup)
    (hs : (fpKeys m1).toFinset = (fpKeys m2).toFinset) :
    m1.length = m2.length := by
  have e1 : m1.length = (fpKeys m1).toFinset.card := by
    rw [List.toFinset_card_of_nodup h1, fpKeys, List.length_map]
  have e2 : m2.length = (fpKeys m2).toFinset.card := by
    rw [List.toFinset_card_of_nodup h2, fpKeys, List.length_map]
  rw [e1, e2, hs]

/-- **C5**: combining an FP-attempt map with the empty map, in either
position and for both add and subtract, returns it unchanged; combining two
non-empty maps with identical key sets is the elementwise sum when adding and
the elementwise first-minus-second difference when subtracting. -/
theorem c5_fp_attempt_map_combination :
    (∀ (m : FpMap) (add : Bool),
        addSubstractFpAttempts m [] add = some m ∧
        addSubstractFpAttempts [] m add = some m) ∧
    (∀ m1 m2 : FpMap, m1 ≠ [] → m2 ≠ [] →
        (fpKeys m1).Nodup → (fpKeys m2).Nodup →
        (fpKeys m1).toFinset = (fpKeys m2).toFinset →
        addSubstractFpAttempts m1 m2 true =
          some (m1.map (fun p => (p.1, p.2 + fpGetD m2 p.1 0))) ∧
        addSubstractFpAttempts m1 m2 false =
          some (m1.map (fun p => (p.1, p.2 - fpGetD m2 p.1 0)))) := by
  constructor
  · intro m add
    constructor
    · simp [addSubstractFpAttempts]
    · cases m with
      | nil => simp [addSubstractFpAttempts]
      | cons p rest => simp [addSubstractFpAttempts]
  · intro m1 m2 h1ne h2ne hnd1 hnd2 hsupp
    have hsome : ∀ k, (fpGet m1 k).isSome ↔ (fpGet m2 k).isSome := by
      intro k
      rw [fpGet_isSome_iff_mem_keys, fpGet_isSome_iff_mem_keys,
        ← List.mem_toFinset, ← List.mem_toFinset, hsupp]
    have hlen : m2.length ≤ m1.length :=
      le_of_eq (fpLength_eq_of_same_support hnd1 hnd2 hsupp).symm
    have hcond : ¬ (m1 = [] ∨ m2 = []) := by simp [h1ne, h2ne]
    have hin : ∀ p ∈ m1, (fpGet m2 p.1).isSome := by
      intro p hp
      exact (hsome p.1).1 (by simp [fpGet_eq_some_of_nodup hnd1 hp])
    have main : ∀ add : Bool,
        addSubstractFpAttempts m1 m2 add =
          some (m1.map (fun p =>
            (p.1, if add then p.2 + fpGetD m2 p.1 0 else p.2 - fpGetD m2 p.1 0))) := by
      intro add
      unfold addSubstractFpAttempts
      simp only [if_pos hlen, if_neg hcond]
      by_cases hdq : fpDictEq m1 m2
      · rw [if_pos hdq]
        rw [combineEntries_eq_map (fun p hp => by
          simp [fpGet_eq_some_of_nodup hnd1 hp])]
        refine congrArg some (List.map_congr_left fun p hp => ?_)
        rw [show fpGetD m1 p.1 0 = fpGetD m2 p.1 0 by
          rw [fpGetD, fpGetD, fpGet_eq_of_fpDictEq hdq]]
      · rw [if_neg hdq]
        exact combineEntries_eq_map hin
    exact ⟨by simpa using main true, by simpa using main false⟩

/-- Witness for C5: identity against the empty map and elementwise add and
subtract on two concrete two-key maps. -/
theorem c5_witness :
    addSubstractFpAttempts [("a", 1)] [] true = some [("a", 1)] ∧
    addSubstractFpAttempts [("a", 1), ("b", 2)] [("b", 20), ("a", 10)] true =
      some [("a", 11), ("b", 22)] ∧
    addSubstractFpAttempts [("a", 1), ("b", 2)] [("b", 20), ("a", 10)] false =
      some [("a", -9), ("b", -18)] := by
  refine ⟨(c5_fp_attempt_map_combination.1 [("a", 1)] true).1, ?_, ?_⟩
  · have h := (c5_fp_attempt_map_combination.2 [("a", 1), ("b", 2)]
      [("b", 20), ("a", 10)] (by decide) (by decide) (by decide) (by decide)
      (by decide)).1
    rw [h]
    rfl
  · have h := (c5_fp_attempt_map_combination.2 [("a", 1), ("b", 2)]
      [("b", 20), ("a", 10)] (by decide) (by decide) (by decide) (by decide)
      (by decide)).2
    rw [h]
    rfl

/-! ## C8: `add_subtrees` empty-operand policy -/

/-- **C8 counterexample**: with both operands empty, `add_subtrees` does not
raise or abort; it returns the empty dict as a perfectly normal value. -/
theorem c8_counterexample_both_empty_returns_normally :
    addSubtrees [] [] = some [] := rfl

/-- **C8 (amended)**: with both operands empty `add_subtrees` prints its
"should never happen" error message but still returns the empty dict
normally; when exactly one operand is empty it returns the non-empty operand
unchanged, with no error message. -/
theorem c8_amended_empty_operand_policy :
    (addSubtrees [] [] = some [] ∧ addSubtreesPrintsError [] [] = true) ∧
    (∀ m : List (String × Int), m ≠ [] →
      addSubtrees [] m = some m ∧ addSubtrees m [] = some m ∧
      addSubtreesPrintsError [] m = false ∧ addSubtreesPrintsError m [] = false) := by
  refine ⟨⟨rfl, rfl⟩, fun m hm => ⟨?_, ?_, ?_, ?_⟩⟩
  · simp [addSubtrees]
  · simp [addSubtrees, hm]
  · simp [addSubtreesPrintsError, hm]
  · simp [addSubtreesPrintsError, hm]

/-- Witness for C8's amended theorem at a concrete non-empty map. -/
theorem c8_amended_witness :
    addSubtrees [] [("subtrees_in_total", 1)] = some [("subtrees_in_total", 1)] ∧
    addSubtrees [("subtrees_in_total", 1)] [] = some [("subtrees_in_total", 1)] ∧
    addSubtreesPrintsError [] [("subtrees_in_total", 1)] = false ∧
    addSubtreesPrintsError [("subtrees_in_total", 1)] [] = false := by
  have h := c8_amended_empty_operand_policy.2 [("subtrees_in_total", 1)] (by decide)
  exact ⟨h.1, h.2.1, h.2.2.1, h.2.2.2⟩

/-! ## C7: subtree partition totals -/

/-- The per-sibling classification fold adds exactly one to one of the three
counters per starting point. -/
theorem subtree_counts_fold_sum (t : RequestTree) (fuel : Nat) (sps : List Nat) :
    ∀ acc : Int × Int × Int,
      (sps.foldl (classifySubtree t fuel) acc).1 +
        (sps.foldl (classifySubtree t fuel) acc).2.1 +
        (sps.foldl (classifySubtree t fuel) acc).2.2 =
      acc.1 + acc.2.1 + acc.2.2 + sps.length := by
  induction sps with
  | nil => intro acc; simp
  | cons sp rest ih =>
    intro acc
    rw [List.foldl_cons, ih]
    unfold classifySubtree
    by_cases hb : (getNode t sp).blocked
    · rw [if_pos hb]
      simp only [List.length_cons]
      push_cast
      ring
    · by_cases hp : subtreeBlockedStatus t fuel sp = "partial_block"
      · rw [if_neg hb, if_pos hp]
        simp only [List.length_cons]
        push_cast
        ring
      · rw [if_neg hb, if_neg hp]
        simp only [List.length_cons]
        push_cast
        ring

/-- **C7**: for every tree and every fuel, the counts returned by
`analyse_subtrees_blocking` satisfy
`subtrees_fully_blocked + subtrees_partially_blocked + subtrees_not_blocked =
subtrees_in_total`, in the root-level-block branch as well as in the
per-sibling classification branch. -/
theorem c7_subtree_partition_totals (t : RequestTree) (fuel : Nat) :
    fpGetD (analyseSubtreesBlocking t fuel) "subtrees_fully_blocked" 0 +
      fpGetD (analyseSubtreesBlocking t fuel) "subtrees_partially_blocked" 0 +
      fpGetD (analyseSubtreesBlocking t fuel) "subtrees_not_blocked" 0 =
    fpGetD (analyseSubtreesBlocking t fuel) "subtrees_in_total" 0 := by
  unfold analyseSubtreesBlocking
  obtain ⟨status, sps, rb⟩ := getFirstLevelWithMultipleChildren t fuel
  by_cases hs : status = "full_block"
  · simp [hs, fpGetD, fpGet]
  · simp only [if_neg hs]
    simp [fpGetD, fpGet]
    have h := subtree_counts_fold_sum t fuel sps (0, 0, 0)
    simpa using h

/-! ## C3: end-to-end example -/

/-- **C3**: on the tree `A -> [B -> [C, D], E -> [F]]` with block list
`["B"]`, `simulate_blocking` reports 3 requests blocked in total, 1 blocked
directly and 2 blocked transitively; the direct view blocks exactly `B`
(also per the realistic first-blocked walk) and the transitive view blocks
exactly `{B, C, D}`. -/
theorem c3_end_to_end_example :
    (simulateBlocking exampleTree ["B"]).map (fun r =>
      (r.requestsBlockedInTotal, r.requestsBlockedDirectly,
       r.requestsBlockedTransitively)) = some (3, 1, 2) ∧
    (((getDirectlyBlockedTree exampleTree ["B"]).nodes.filter
        (fun nd => nd.blocked)).map (fun nd => nd.resource)) = ["B"] ∧
    ((firstlyBlocked (getTransitivelyBlockedTree
        (getDirectlyBlockedTree exampleTree ["B"]) ["B"]) 6 0).map
      (fun i => (getNode (getTransitivelyBlockedTree
        (getDirectlyBlockedTree exampleTree ["B"]) ["B"]) i).resource)) = ["B"] ∧
    (((getTransitivelyBlockedTree (getDirectlyBlockedTree exampleTree ["B"])
        ["B"]).nodes.filter (fun nd => nd.blocked)).map
      (fun nd => nd.resource)) = ["B", "C", "D"] := by
  refine ⟨?_, by decide, by decide, by decide⟩
  decide

/-! ## C9: per-path (not per-node) counting -/

/-- **C9**: the traversals count per causal path, not per distinct node: a
node occurs in `get_all_children_nodes` once per child-edge path reaching it,
`total_blocked` is the number of blocked entries of that per-path pre-order,
and on a concrete diamond whose sink `C` is reachable along 2 paths and
blocked, `C` contributes 2 to `total_blocked`, appears twice in
`firstly_blocked`, and its single FP attempt is counted twice by
`total_fpd_attempts`. -/
theorem c9_per_path_counting :
    (∀ (t : RequestTree) (fuel i j : Nat),
        (getAllChildrenNodes t fuel i).count j = pathsCount t fuel i j) ∧
    (∀ (t : RequestTree) (fuel i : Nat),
        totalBlocked t fuel i =
          ((getAllChildrenNodes t fuel i).filter
            (fun j => (getNode t j).blocked)).length) ∧
    pathsCount diamondBlockedTree 4 0 3 = 2 ∧
    totalBlocked diamondBlockedTree 4 0 = 2 ∧
    firstlyBlocked diamondBlockedTree 4 0 = [3, 3] ∧
    totalFpdAttempts diamondBlockedTree 4 0 = some [("BrowserProperties", 2)] := by
  refine ⟨?_, ?_, by decide, by decide, by decide, by decide⟩
  · intro t fuel
    induction fuel with
    | zero => intro i j; rfl
    | succ fuel ih =>
      intro i j
      rw [getAllChildrenNodes, pathsCount, List.count_cons, List.count_flatten]
      rw [List.map_map]
      have : ((getNode t i).children.map (List.count j ∘ getAllChildrenNodes t fuel)).sum
          = ((getNode t i).children.map (fun c => pathsCount t fuel c j)).sum := by
        refine congrArg List.sum (List.map_congr_left fun c _ => ?_)
        exact ih c j
      rw [this]
      by_cases hij : i = j
      · simp [hij, add_comm]
      · simp [hij, Ne.symm hij]
  · intro t fuel
    induction fuel with
    | zero => intro i; rfl
    | succ fuel ih =>
      intro i
      have hsum : ∀ cs : List Nat,
          (((cs.map (getAllChildrenNodes t fuel)).flatten).filter
            (fun j => (getNode t j).blocked)).length =
          (cs.map (totalBlocked t fuel)).sum := by
        intro cs
        induction cs with
        | nil => simp
        | cons c rest ihc =>
          simp only [List.map_cons, List.flatten_cons, List.filter_append,
            List.length_append, List.sum_cons, ihc, ih c]
      rw [totalBlocked, getAllChildrenNodes]
      by_cases hb : (getNode t i).blocked
      · rw [List.filter_cons_of_pos (by simp [hb]), List.length_cons, hsum]
        simp [hb, Nat.add_comm]
      · rw [List.filter_cons_of_neg (by simp [hb]), hsum]
        simp [hb]

/-! ## Flag-mutation projection lemmas -/

theorem setNode_eq_of_le {t : RequestTree} {i : Nat} (nd : RequestNode)
    (h : t.nodes.length ≤ i) : setNode t i nd = t := by
  simp [setNode, List.set_eq_of_length_le h]

theorem getNode_setNode (t : RequestTree) (i : Nat) (nd : RequestNode) (j : Nat) :
    getNode (setNode t i nd) j =
      if j = i ∧ i < t.nodes.length then nd else getNode t j := by
  by_cases h1 : i < t.nodes.length
  · by_cases h2 : j = i
    · subst h2
      rw [getNode_setNode_self t j nd h1, if_pos ⟨rfl, h1⟩]
    · rw [getNode_setNode_ne t i j nd h2, if_neg (by simp [h2])]
  · rw [setNode_eq_of_le nd (le_of_not_lt h1), if_neg (by simp [h1])]

theorem blockNode_eq_cases (t : RequestTree) (i : Nat) (b : Bool) :
    blockNode t i b = t ∨
    blockNode t i b = setNode t i { getNode t i with blocked := true } := by
  unfold blockNode
  by_cases hb : b
  · subst hb
    simp only [if_pos]
    split
    · right; rfl
    · left; rfl
  · simp only [Bool.not_eq_true] at hb
    subst hb
    right
    rfl

theorem length_blockNode (t : RequestTree) (i : Nat) (b : Bool) :
    (blockNode t i b).nodes.length = t.nodes.length := by
  rcases blockNode_eq_cases t i b with h | h
  · rw [h]
  · rw [h]
    exact length_setNode t i _

theorem rootId_blockNode (t : RequestTree) (i : Nat) (b : Bool) :
    (blockNode t i b).rootId = t.rootId := by
  rcases blockNode_eq_cases t i b with h | h
  · rw [h]
  · rw [h]
    rfl

theorem structPreserved_refl (t : RequestTree) : StructPreserved t t :=
  ⟨rfl, rfl, fun _ => ⟨rfl, rfl, rfl, rfl⟩⟩

theorem structPreserved_trans {a b c : RequestTree}
    (h1 : StructPreserved a b) (h2 : StructPreserved b c) : StructPreserved a c := by
  obtain ⟨hl1, hr1, hp1⟩ := h1
  obtain ⟨hl2, hr2, hp2⟩ := h2
  refine ⟨hl2.trans hl1, hr2.trans hr1, fun j => ?_⟩
  obtain ⟨a1, a2, a3, a4⟩ := hp1 j
  obtain ⟨b1, b2, b3, b4⟩ := hp2 j
  exact ⟨b1.trans a1, b2.trans a2, b3.trans a3, b4.trans a4⟩

theorem structPreserved_setNode_flags (t : RequestTree) (i : Nat)
    {bl rp : Bool} :
    StructPreserved t (setNode t i { getNode t i with blocked := bl, repeated := rp }) := by
  refine ⟨length_setNode t i _, rootId_setNode t i _, fun j => ?_⟩
  rw [getNode_setNode]
  split
  · rename_i h
    rw [h.1]
    exact ⟨rfl, rfl, rfl, rfl⟩
  · exact ⟨rfl, rfl, rfl, rfl⟩

theorem structPreserved_blockNode (t : RequestTree) (i : Nat) (b : Bool) :
    StructPreserved t (blockNode t i b) := by
  rcases blockNode_eq_cases t i b with h | h
  · rw [h]
    exact structPreserved_refl t
  · rw [h]
    exact structPreserved_setNode_flags t i

theorem structPreserved_setRepeated (t : RequestTree) (i : Nat) :
    StructPreserved t (setRepeated t i) :=
  structPreserved_setNode_flags t i

theorem getNode_blockNode_repeated (t : RequestTree) (i : Nat) (b : Bool) (j : Nat) :
    (getNode (blockNode t i b) j).repeated = (getNode t j).repeated := by
  rcases blockNode_eq_cases t i b with h | h
  · rw [h]
  · rw [h, getNode_setNode]
    split
    · rename_i hc
      rw [hc.1]
    · rfl

theorem getNode_setRepeated_blocked (t : RequestTree) (i : Nat) (j : Nat) :
    (getNode (setRepeated t i) j).blocked = (getNode t j).blocked := by
  rw [setRepeated, getNode_setNode]
  split
  · rename_i hc
    rw [hc.1]
  · rfl

theorem blockNode_blocked_ne (t : RequestTree) (i : Nat) (b : Bool) {j : Nat}
    (h : j ≠ i) : (getNode (blockNode t i b) j).blocked = (getNode t j).blocked := by
  rcases blockNode_eq_cases t i b with hc | hc
  · rw [hc]
  · rw [hc, getNode_setNode, if_neg (by simp [h])]

theorem blockedMono_blockNode (t : RequestTree) (i : Nat) (b : Bool) :
    BlockedMono t (blockNode t i b) := by
  intro j hj
  rcases blockNode_eq_cases t i b with hc | hc
  · rw [hc]
    exact hj
  · rw [hc, getNode_setNode]
    split
    · rfl
    · exact hj

theorem blockedMono_refl (t : RequestTree) : BlockedMono t t := fun _ h => h

theorem blockedMono_trans {a b c : RequestTree} (h1 : BlockedMono a b)
    (h2 : BlockedMono b c) : BlockedMono a c := fun j hj => h2 j (h1 j hj)

theorem blockedMono_setRepeated (t : RequestTree) (i : Nat) :
    BlockedMono t (setRepeated t i) := by
  intro j hj
  rw [getNode_setRepeated_blocked]
  exact hj

theorem blockNode_false_blocks (t : RequestTree) {i : Nat}
    (h : i < t.nodes.length) : (getNode (blockNode t i false) i).blocked = true := by
  rw [show blockNode t i false = setNode t i { getNode t i with blocked := true } from rfl]
  rw [getNode_setNode, if_pos ⟨rfl, h⟩]

/-- Inversion of `block(transitive_block=True)`: a newly blocked node is the
target itself, it was not repeated, and all its parents were blocked. -/
theorem blockNode_true_inversion {t : RequestTree} {i j : Nat}
    (hnew : (getNode (blockNode t i true) j).blocked = true)
    (hold : (getNode t j).blocked = false) :
    j = i ∧ (getNode t i).repeated = false ∧
      ∀ p ∈ (getNode t i).parents, (getNode t p).blocked = true := by
  by_cases hji : j = i
  · subst hji
    unfold blockNode at hnew
    simp only [if_pos] at hnew
    by_cases hcond : ¬(getNode t j).repeated = true ∧
        ((getNode t j).parents.all fun p => (getNode t p).blocked) = true
    · refine ⟨rfl, by simpa using hcond.1, ?_⟩
      have := hcond.2
      rw [List.all_eq_true] at this
      exact fun p hp => this p hp
    · rw [if_neg hcond] at hnew
      rw [hnew] at hold
      cases hold
  · rw [blockNode_blocked_ne t i true hji] at hnew
    rw [hnew] at hold
    cases hold

theorem blockNode_true_blocks {t : RequestTree} {i : Nat}
    (hlt : i < t.nodes.length) (hrep : (getNode t i).repeated = false)
    (hall : ∀ p ∈ (getNode t i).parents, (getNode t p).blocked = true) :
    (getNode (blockNode t i true) i).blocked = true := by
  unfold blockNode
  simp only [if_pos]
  rw [if_pos ⟨by simp [hrep], by rw [List.all_eq_true]; exact fun p hp => hall p hp⟩]
  rw [getNode_setNode, if_pos ⟨rfl, hlt⟩]

/-! ## Traversal stability and bounds -/

/-- `find_nodes` reads only the skeleton, so it is stable across passes. -/
theorem findNodes_congr {t t' : RequestTree} (h : StructPreserved t t') :
    ∀ (fuel i : Nat) (res : String), findNodes t' fuel i res = findNodes t fuel i res := by
  intro fuel
  induction fuel with
  | zero => intro i res; rfl
  | succ fuel ih =>
    intro i res
    rw [findNodes, findNodes, (h.2.2 i).1, (h.2.2 i).2.1]
    refine congrArg (fun c => if (getNode t i).resource = res then [i] else c) ?_
    exact congrArg List.flatten (List.map_congr_left fun c _ => ih c res)

/-- `get_all_children_nodes` reads only the skeleton. -/
theorem getAllChildrenNodes_congr {t t' : RequestTree} (h : StructPreserved t t') :
    ∀ (fuel i : Nat), getAllChildrenNodes t' fuel i = getAllChildrenNodes t fuel i := by
  intro fuel
  induction fuel with
  | zero => intro i; rfl
  | succ fuel ih =>
    intro i
    rw [getAllChildrenNodes, getAllChildrenNodes, (h.2.2 i).2.1]
    exact congrArg (i :: ·)
      (congrArg List.flatten (List.map_congr_left fun c _ => ih c))

theorem wfEdges_root {t : RequestTree} (h : wfEdges t = true) :
    t.rootId < t.nodes.length := by
  rw [wfEdges, Bool.and_eq_true] at h
  exact of_decide_eq_true h.1

theorem wfEdges_child {t : RequestTree} (h : wfEdges t = true) {i c : Nat}
    (hi : i < t.nodes.length) (hc : c ∈ (getNode t i).children) :
    i < c ∧ c < t.nodes.length := by
  rw [wfEdges, Bool.and_eq_true, List.all_eq_true] at h
  have := h.2 i (List.mem_range.2 hi)
  rw [List.all_eq_true] at this
  have := this c hc
  rw [Bool.and_eq_true] at this
  exact ⟨of_decide_eq_true this.1, of_decide_eq_true this.2⟩

theorem wfParentChild_iff {t : RequestTree} (h : wfParentChild t = true)
    {i j : Nat} (hi : i < t.nodes.length) (hj : j < t.nodes.length) :
    j ∈ (getNode t i).children ↔ i ∈ (getNode t j).parents := by
  rw [wfParentChild, List.all_eq_true] at h
  have := h i (List.mem_range.2 hi)
  rw [List.all_eq_true] at this
  exact of_decide_eq_true (this j (List.mem_range.2 hj))

theorem wfParentsValid_mem {t : RequestTree} (h : wfParentsValid t = true)
    {i p : Nat} (hi : i < t.nodes.length) (hp : p ∈ (getNode t i).parents) :
    p < t.nodes.length := by
  rw [wfParentsValid, List.all_eq_true] at h
  have := h i (List.mem_range.2 hi)
  rw [List.all_eq_true] at this
  exact of_decide_eq_true (this p hp)

theorem wfNoRepeated_all {t : RequestTree} (h : wfNoRepeated t = true) :
    NoRepeatedAll t := by
  intro i
  by_cases hi : i < t.nodes.length
  · rw [wfNoRepeated, List.all_eq_true] at h
    have := h i (List.mem_range.2 hi)
    simpa using this
  · rw [getNode, List.getD_eq_getElem?_getD, List.getElem?_eq_none (le_of_not_lt hi)]
    rfl

theorem wfSingleParent_le {t : RequestTree} (h : wfSingleParent t = true)
    (i : Nat) : (getNode t i).parents.length ≤ 1 := by
  by_cases hi : i < t.nodes.length
  · rw [wfSingleParent, List.all_eq_true] at h
    exact of_decide_eq_true (h i (List.mem_range.2 hi))
  · rw [getNode, List.getD_eq_getElem?_getD, List.getElem?_eq_none (le_of_not_lt hi)]
    exact Nat.zero_le 1

theorem wfRootParentless_eq {t : RequestTree} (h : wfRootParentless t = true) :
    (getNode t t.rootId).parents = [] :=
  of_decide_eq_true h

/-! ### Well-formedness transfers along `StructPreserved` -/

theorem wfEdges_of_struct {t t' : RequestTree} (hs : StructPreserved t t')
    (h : wfEdges t = true) : wfEdges t' = true := by
  rw [wfEdges, Bool.and_eq_true]
  constructor
  · rw [hs.1, hs.2.1]
    exact decide_eq_true (wfEdges_root h)
  · rw [List.all_eq_true]
    intro i hi
    rw [List.all_eq_true]
    intro c hc
    rw [(hs.2.2 i).2.1] at hc
    rw [hs.1] at hi
    obtain ⟨h1, h2⟩ := wfEdges_child h (List.mem_range.1 hi) hc
    rw [Bool.and_eq_true, hs.1]
    exact ⟨decide_eq_true h1, decide_eq_true h2⟩

theorem wfParentChild_of_struct {t t' : RequestTree} (hs : StructPreserved t t')
    (h : wfParentChild t = true) : wfParentChild t' = true := by
  rw [wfParentChild, List.all_eq_true]
  intro i hi
  rw [List.all_eq_true]
  intro j hj
  rw [hs.1] at hi hj
  rw [(hs.2.2 i).2.1, (hs.2.2 j).2.2.1]
  exact decide_eq_true (wfParentChild_iff h (List.mem_range.1 hi) (List.mem_range.1 hj))

theorem wfParentsValid_of_struct {t t' : RequestTree} (hs : StructPreserved t t')
    (h : wfParentsValid t = true) : wfParentsValid t' = true := by
  rw [wfParentsValid, List.all_eq_true]
  intro i hi
  rw [List.all_eq_true]
  intro p hp
  rw [hs.1] at hi
  rw [(hs.2.2 i).2.2.1] at hp
  rw [hs.1]
  exact decide_eq_true (wfParentsValid_mem h (List.mem_range.1 hi) hp)

theorem wfRootParentless_of_struct {t t' : RequestTree} (hs : StructPreserved t t')
    (h : wfRootParentless t = true) : wfRootParentless t' = true := by
  rw [wfRootParentless, hs.2.1, (hs.2.2 t.rootId).2.2.1]
  exact h

theorem wfSingleParent_of_struct {t t' : RequestTree} (hs : StructPreserved t t')
    (h : wfSingleParent t = true) : wfSingleParent t' = true := by
  rw [wfSingleParent, List.all_eq_true]
  intro i hi
  rw [(hs.2.2 i).2.2.1]
  rw [hs.1] at hi
  exact decide_eq_true (wfSingleParent_le h i)

/-! ### Membership bounds for the traversals -/

theorem findNodes_mem_lt {t : RequestTree} (h : wfEdges t = true) :
    ∀ (fuel : Nat) {i : Nat} {res : String} {j : Nat}, i < t.nodes.length →
      j ∈ findNodes t fuel i res → j < t.nodes.length := by
  intro fuel
  induction fuel with
  | zero => intro i res j _ hj; simp [findNodes] at hj
  | succ fuel ih =>
    intro i res j hi hj
    rw [findNodes] at hj
    split at hj
    · rw [List.mem_singleton] at hj
      exact hj ▸ hi
    · rw [List.mem_flatten] at hj
      obtain ⟨L, hL, hjL⟩ := hj
      rw [List.mem_map] at hL
      obtain ⟨c, hc, rfl⟩ := hL
      exact ih (wfEdges_child h hi hc).2 hjL

theorem getAllChildrenNodes_mem_lt {t : RequestTree} (h : wfEdges t = true) :
    ∀ (fuel : Nat) {i j : Nat}, i < t.nodes.length →
      j ∈ getAllChildrenNodes t fuel i → j < t.nodes.length := by
  intro fuel
  induction fuel with
  | zero => intro i j _ hj; simp [getAllChildrenNodes] at hj
  | succ fuel ih =>
    intro i j hi hj
    rw [getAllChildrenNodes, List.mem_cons] at hj
    rcases hj with rfl | hj
    · exact hi
    · rw [List.mem_flatten] at hj
      obtain ⟨L, hL, hjL⟩ := hj
      rw [List.mem_map] at hL
      obtain ⟨c, hc, rfl⟩ := hL
      exact ih (wfEdges_child h hi hc).2 hjL

/-- In a consistent tree, a parentless member of a pre-order walk can only be
the walk's starting node. -/
theorem getAllChildrenNodes_parentless {t : RequestTree} (he : wfEdges t = true)
    (hpc : wfParentChild t = true) :
    ∀ (fuel : Nat) {i j : Nat}, i < t.nodes.length →
      j ∈ getAllChildrenNodes t fuel i → (getNode t j).parents = [] → j = i := by
  intro fuel
  induction fuel with
  | zero => intro i j _ hj; simp [getAllChildrenNodes] at hj
  | succ fuel ih =>
    intro i j hi hj hpar
    rw [getAllChildrenNodes, List.mem_cons] at hj
    rcases hj with rfl | hj
    · rfl
    · rw [List.mem_flatten] at hj
      obtain ⟨L, hL, hjL⟩ := hj
      rw [List.mem_map] at hL
      obtain ⟨c, hc, rfl⟩ := hL
      obtain ⟨_, hclt⟩ := wfEdges_child he hi hc
      have hjc : j = c := ih hclt hjL hpar
      subst hjc
      have : i ∈ (getNode t j).parents := (wfParentChild_iff hpc hi hclt).1 hc
      rw [hpar] at this
      simp at this

/-! ## Fold machinery -/

theorem foldl_preserves {α : Type} {P : RequestTree → Prop}
    {step : RequestTree → α → RequestTree} :
    ∀ l : List α, (∀ s a, a ∈ l → P s → P (step s a)) →
      ∀ t, P t → P (l.foldl step t) := by
  intro l
  induction l with
  | nil => intro _ t ht; exact ht
  | cons a rest ih =>
    intro h t ht
    rw [List.foldl_cons]
    exact ih (fun s b hb => h s b (List.mem_cons_of_mem a hb)) _
      (h t a (List.mem_cons_self a rest) ht)

theorem foldl_structPreserved {α : Type} {step : RequestTree → α → RequestTree}
    (hstep : ∀ s a, StructPreserved s (step s a)) (l : List α) (t : RequestTree) :
    StructPreserved t (l.foldl step t) :=
  foldl_preserves l (fun s a _ hs => structPreserved_trans hs (hstep s a)) t
    (structPreserved_refl t)

theorem foldl_blockedMono {α : Type} {step : RequestTree → α → RequestTree}
    (hstep : ∀ s a, BlockedMono s (step s a)) (l : List α) (t : RequestTree) :
    BlockedMono t (l.foldl step t) :=
  foldl_preserves l (fun s a _ hs => blockedMono_trans hs (hstep s a)) t
    (blockedMono_refl t)

theorem blockedMono_setRepeated_fold (l : List Nat) (t : RequestTree) :
    BlockedMono t (l.foldl (fun t node => setRepeated t node) t) :=
  foldl_blockedMono (fun s a => blockedMono_setRepeated s a) l t

theorem structPreserved_blockFoundNodes (t : RequestTree) (res : String) :
    StructPreserved t (blockFoundNodes t res) :=
  foldl_structPreserved (fun s a => structPreserved_blockNode s a false) _ t

theorem blockedMono_blockFoundNodes (t : RequestTree) (res : String) :
    BlockedMono t (blockFoundNodes t res) :=
  foldl_blockedMono (fun s a => blockedMono_blockNode s a false) _ t

theorem structPreserved_transitiveBlockPass (t : RequestTree) (pi : Nat) :
    StructPreserved t (transitiveBlockPass t pi) := by
  have key : ∀ (t1 : RequestTree) (L : List Nat), StructPreserved t t1 →
      StructPreserved t (L.foldl (fun s n => blockNode s n true)
        (if (getNode t1 pi).repeated then
          L.foldl (fun s n => setRepeated s n) t1 else t1)) := by
    intro t1 L h1
    have h2 : StructPreserved t1
        (if (getNode t1 pi).repeated then
          L.foldl (fun s n => setRepeated s n) t1 else t1) := by
      split
      · exact foldl_structPreserved (fun s a => structPreserved_setRepeated s a) L t1
      · exact structPreserved_refl t1
    exact structPreserved_trans (structPreserved_trans h1 h2)
      (foldl_structPreserved (fun s a => structPreserved_blockNode s a true) L _)
  exact key (blockNode t pi false) _ (structPreserved_blockNode t pi false)

theorem blockedMono_transitiveBlockPass (t : RequestTree) (pi : Nat) :
    BlockedMono t (transitiveBlockPass t pi) := by
  have key : ∀ (t1 : RequestTree) (L : List Nat), BlockedMono t t1 →
      BlockedMono t (L.foldl (fun s n => blockNode s n true)
        (if (getNode t1 pi).repeated then
          L.foldl (fun s n => setRepeated s n) t1 else t1)) := by
    intro t1 L h1
    have h2 : BlockedMono t1
        (if (getNode t1 pi).repeated then
          L.foldl (fun s n => setRepeated s n) t1 else t1) := by
      split
      · exact blockedMono_setRepeated_fold L t1
      · exact blockedMono_refl t1
    exact blockedMono_trans (blockedMono_trans h1 h2)
      (foldl_blockedMono (fun s a => blockedMono_blockNode s a true) L _)
  exact key (blockNode t pi false) _ (blockedMono_blockNode t pi false)

theorem structPreserved_transitiveBlockResource (t : RequestTree) (res : String) :
    StructPreserved t (transitiveBlockResource t res) :=
  foldl_structPreserved structPreserved_transitiveBlockPass _ t

theorem blockedMono_transitiveBlockResource (t : RequestTree) (res : String) :
    BlockedMono t (transitiveBlockResource t res) :=
  foldl_blockedMono blockedMono_transitiveBlockPass _ t

theorem structPreserved_getDirectlyBlockedTree (t : RequestTree) (rs : List String) :
    StructPreserved t (getDirectlyBlockedTree t rs) :=
  foldl_structPreserved structPreserved_blockFoundNodes rs t

theorem blockedMono_getDirectlyBlockedTree (t : RequestTree) (rs : List String) :
    BlockedMono t (getDirectlyBlockedTree t rs) :=
  foldl_blockedMono blockedMono_blockFoundNodes rs t

theorem structPreserved_getTransitivelyBlockedTree (t : RequestTree)
    (rs : List String) : StructPreserved t (getTransitivelyBlockedTree t rs) :=
  foldl_structPreserved structPreserved_transitiveBlockResource rs t

theorem blockedMono_getTransitivelyBlockedTree (t : RequestTree)
    (rs : List String) : BlockedMono t (getTransitivelyBlockedTree t rs) :=
  foldl_blockedMono blockedMono_transitiveBlockResource rs t

/-! ## The direct pass blocks exactly what it finds -/

theorem blocked_foldl_blockNode_of_mem :
    ∀ (l : List Nat) (t : RequestTree) {i : Nat}, i ∈ l → i < t.nodes.length →
      (getNode (l.foldl (fun t node => blockNode t node) t) i).blocked = true := by
  intro l
  induction l with
  | nil => intro t i hi; simp at hi
  | cons a rest ih =>
    intro t i hi hlt
    rw [List.foldl_cons]
    rcases List.mem_cons.1 hi with rfl | hmem
    · exact foldl_blockedMono (fun s a => blockedMono_blockNode s a false) rest _
        i (blockNode_false_blocks t hlt)
    · exact ih _ hmem (by rw [length_blockNode]; exact hlt)

theorem foldl_blockFoundNodes_blocks {t0 : RequestTree} (he : wfEdges t0 = true) :
    ∀ (rs : List String) (t : RequestTree), StructPreserved t0 t →
      ∀ res ∈ rs, ∀ i ∈ findNodes t0 t0.nodes.length t0.rootId res,
        (getNode (rs.foldl blockFoundNodes t) i).blocked = true := by
  intro rs
  induction rs with
  | nil => intro t _ res hres; simp at hres
  | cons r rest ih =>
    intro t hst res hres i hifind
    have hilt : i < t0.nodes.length :=
      findNodes_mem_lt he _ (wfEdges_root he) hifind
    rw [List.foldl_cons]
    rcases List.mem_cons.1 hres with rfl | hmem
    · have hfound : i ∈ findNodes t t.nodes.length t.rootId res := by
        rw [findNodes_congr hst, hst.1, hst.2.1]
        exact hifind
      have hblocked : (getNode (blockFoundNodes t res) i).blocked = true := by
        rw [blockFoundNodes]
        exact blocked_foldl_blockNode_of_mem _ t hfound (hst.1 ▸ hilt)
      exact foldl_blockedMono blockedMono_blockFoundNodes rest _ i hblocked
    · exact ih _ (structPreserved_trans hst (structPreserved_blockFoundNodes t r))
        res hmem i hifind

/-- Every directly matched node is blocked by `get_directly_blocked_tree`. -/
theorem directlyMatched_blocked {t0 : RequestTree} (he : wfEdges t0 = true)
    {rs : List String} {i : Nat} (hm : DirectlyMatched t0 rs i) :
    (getNode (getDirectlyBlockedTree t0 rs) i).blocked = true := by
  obtain ⟨res, hres, hfind⟩ := hm
  exact foldl_blockFoundNodes_blocks he rs t0 (structPreserved_refl t0) res hres i hfind

/-! ## Soundness of the transitive projection (invariant steps) -/

theorem setRepeated_repeated_mono (t : RequestTree) (i j : Nat)
    (h : (getNode t j).repeated = true) :
    (getNode (setRepeated t i) j).repeated = true := by
  rw [setRepeated, getNode_setNode]
  split
  · rfl
  · exact h

theorem transInv_refl (t0 : RequestTree) (rs : List String) : TransInv t0 t0 rs :=
  ⟨structPreserved_refl t0, fun i h => Or.inl h, fun _ h => h, fun i _ h => Or.inl h⟩

theorem transInv_blockNode_direct {t0 t : RequestTree} {rs : List String} {i : Nat}
    (h : TransInv t0 t rs) (hm : DirectlyMatched t0 rs i) :
    TransInv t0 (blockNode t i false) rs := by
  obtain ⟨hs, hsound, hrm, hrs⟩ := h
  refine ⟨structPreserved_trans hs (structPreserved_blockNode t i false), ?_, ?_, ?_⟩
  · intro j hj
    by_cases hji : j = i
    · subst hji
      exact Or.inr (Or.inl hm)
    · rw [blockNode_blocked_ne t i false hji] at hj
      rcases hsound j hj with h1 | h2 | h3
      · exact Or.inl h1
      · exact Or.inr (Or.inl h2)
      · exact Or.inr (Or.inr ⟨h3.1, fun p hp =>
          blockedMono_blockNode t i false p (h3.2 p hp)⟩)
  · intro j hj
    rw [getNode_blockNode_repeated]
    exact hrm j hj
  · intro j hrep hj
    by_cases hji : j = i
    · subst hji
      exact Or.inr hm
    · rw [blockNode_blocked_ne t i false hji] at hj
      exact hrs j hrep hj

theorem transInv_blockNode_true {t0 t : RequestTree} {rs : List String} {j : Nat}
    (h : TransInv t0 t rs)
    (hpar : (getNode t0 j).parents = [] → DirectlyMatched t0 rs j) :
    TransInv t0 (blockNode t j true) rs := by
  obtain ⟨hs, hsound, hrm, hrs⟩ := h
  refine ⟨structPreserved_trans hs (structPreserved_blockNode t j true), ?_, ?_, ?_⟩
  · intro k hk
    by_cases hkj : k = j
    · subst hkj
      by_cases hold : (getNode t k).blocked = true
      · rcases hsound k hold with h1 | h2 | h3
        · exact Or.inl h1
        · exact Or.inr (Or.inl h2)
        · exact Or.inr (Or.inr ⟨h3.1, fun p hp =>
            blockedMono_blockNode t k true p (h3.2 p hp)⟩)
      · obtain ⟨_, hnr, hall⟩ :=
          blockNode_true_inversion hk (Bool.not_eq_true _ ▸ hold)
        by_cases hpe : (getNode t0 k).parents = []
        · exact Or.inr (Or.inl (hpar hpe))
        · refine Or.inr (Or.inr ⟨hpe, fun p hp => ?_⟩)
          have hp' : p ∈ (getNode t k).parents := by
            rw [(hs.2.2 k).2.2.1]
            exact hp
          exact blockedMono_blockNode t k true p (hall p hp')
    · rw [blockNode_blocked_ne t j true hkj] at hk
      rcases hsound k hk with h1 | h2 | h3
      · exact Or.inl h1
      · exact Or.inr (Or.inl h2)
      · exact Or.inr (Or.inr ⟨h3.1, fun p hp =>
          blockedMono_blockNode t j true p (h3.2 p hp)⟩)
  · intro k hk
    rw [getNode_blockNode_repeated]
    exact hrm k hk
  · intro k hrep hk
    by_cases hkj : k = j
    · subst hkj
      by_cases hold : (getNode t k).blocked = true
      · exact hrs k hrep hold
      · obtain ⟨_, hnr, _⟩ :=
          blockNode_true_inversion hk (Bool.not_eq_true _ ▸ hold)
        rw [hrm k hrep] at hnr
        cases hnr
    · rw [blockNode_blocked_ne t j true hkj] at hk
      exact hrs k hrep hk

theorem transInv_setRepeated {t0 t : RequestTree} {rs : List String} {i : Nat}
    (h : TransInv t0 t rs) : TransInv t0 (setRepeated t i) rs := by
  obtain ⟨hs, hsound, hrm, hrs⟩ := h
  refine ⟨structPreserved_trans hs (structPreserved_setRepeated t i), ?_, ?_, ?_⟩
  · intro j hj
    rw [getNode_setRepeated_blocked] at hj
    rcases hsound j hj with h1 | h2 | h3
    · exact Or.inl h1
    · exact Or.inr (Or.inl h2)
    · exact Or.inr (Or.inr ⟨h3.1, fun p hp => by
        rw [getNode_setRepeated_blocked]
        exact h3.2 p hp⟩)
  · intro j hj
    exact setRepeated_repeated_mono t i j (hrm j hj)
  · intro j hrep hj
    rw [getNode_setRepeated_blocked] at hj
    exact hrs j hrep hj

theorem transInv_transitiveBlockPass {t0 : RequestTree} {rs : List String}
    (he : wfEdges t0 = true) (hpc : wfParentChild t0 = true)
    {t : RequestTree} {pi : Nat} (h : TransInv t0 t rs)
    (hm : DirectlyMatched t0 rs pi) (hpilt : pi < t0.nodes.length) :
    TransInv t0 (transitiveBlockPass t pi) rs := by
  have key : ∀ (t1 : RequestTree), TransInv t0 t1 rs →
      ∀ L : List Nat, (∀ j ∈ L, (getNode t0 j).parents = [] → DirectlyMatched t0 rs j) →
      TransInv t0 (L.foldl (fun s n => blockNode s n true)
        (if (getNode t1 pi).repeated then
          L.foldl (fun s n => setRepeated s n) t1 else t1)) rs := by
    intro t1 h1 L hL
    have h2 : TransInv t0
        (if (getNode t1 pi).repeated then
          L.foldl (fun s n => setRepeated s n) t1 else t1) rs := by
      split
      · exact foldl_preserves (P := fun s => TransInv t0 s rs) L
          (fun s a _ hs => transInv_setRepeated hs) t1 h1
      · exact h1
    exact foldl_preserves (P := fun s => TransInv t0 s rs) L
      (fun s a ha hs => transInv_blockNode_true hs (hL a ha)) _ h2
  have h1 : TransInv t0 (blockNode t pi false) rs := transInv_blockNode_direct h hm
  have hchild : getAllChildrenNodes (blockNode t pi false)
      (blockNode t pi false).nodes.length pi =
      getAllChildrenNodes t0 t0.nodes.length pi := by
    rw [getAllChildrenNodes_congr h1.1, h1.1.1]
  have hL : ∀ j ∈ getAllChildrenNodes (blockNode t pi false)
      (blockNode t pi false).nodes.length pi,
      (getNode t0 j).parents = [] → DirectlyMatched t0 rs j := by
    intro j hj hpe
    rw [hchild] at hj
    have := getAllChildrenNodes_parentless he hpc t0.nodes.length hpilt hj hpe
    subst this
    exact hm
  exact key (blockNode t pi false) h1 _ hL

theorem transInv_transitiveBlockResource {t0 : RequestTree} {rs : List String}
    (he : wfEdges t0 = true) (hpc : wfParentChild t0 = true)
    {t : RequestTree} {res : String} (hres : res ∈ rs) (h : TransInv t0 t rs) :
    TransInv t0 (transitiveBlockResource t res) rs := by
  rw [transitiveBlockResource, findNodes_congr h.1, h.1.1, h.1.2.1]
  refine foldl_preserves (P := fun s => TransInv t0 s rs) _
    (fun s pi hpi hs => ?_) t h
  exact transInv_transitiveBlockPass he hpc hs ⟨res, hres, hpi⟩
    (findNodes_mem_lt he _ (wfEdges_root he) hpi)

/-- The soundness invariant holds of the full transitive projection. -/
theorem transInv_getTransitivelyBlockedTree {t0 : RequestTree} {rs : List String}
    (he : wfEdges t0 = true) (hpc : wfParentChild t0 = true) :
    TransInv t0 (getTransitivelyBlockedTree t0 rs) rs :=
  foldl_preserves (P := fun s => TransInv t0 s rs) rs
    (fun s res hres hs => transInv_transitiveBlockResource he hpc hres hs) t0
    (transInv_refl t0 rs)

/-! ## Completeness of the transitive projection on single-parent trees -/

theorem eq_singleton_of_length_le_one {l : List Nat} {i : Nat}
    (hlen : l.length ≤ 1) (hi : i ∈ l) : l = [i] := by
  match l, hi with
  | [a], hi =>
    rw [List.mem_singleton] at hi
    rw [hi]

theorem noRepeatedAll_blockNode {t : RequestTree} (i : Nat) (b : Bool)
    (h : NoRepeatedAll t) : NoRepeatedAll (blockNode t i b) := by
  intro j
  rw [getNode_blockNode_repeated]
  exact h j

theorem noRepeatedAll_foldl_blockNode {l : List Nat} {b : Bool} {t : RequestTree}
    (h : NoRepeatedAll t) :
    NoRepeatedAll (l.foldl (fun s n => blockNode s n b) t) :=
  foldl_preserves (P := NoRepeatedAll) l
    (fun s a _ hs => noRepeatedAll_blockNode a b hs) t h

/-- Folding `block(transitive_block=True)` over a pre-order listing blocks
every listed node, provided the start node is blocked (or all its parents
are), no node is repeated, and every node has at most one parent. -/
theorem blockTransFold_blocks_all {t0 : RequestTree} (he : wfEdges t0 = true)
    (hpc : wfParentChild t0 = true) (hsp : wfSingleParent t0 = true) :
    ∀ (fuel : Nat) (i : Nat) (t : RequestTree), i < t0.nodes.length →
      StructPreserved t0 t → NoRepeatedAll t →
      ((getNode t i).blocked = true ∨
        ∀ p ∈ (getNode t0 i).parents, (getNode t p).blocked = true) →
      ∀ j ∈ getAllChildrenNodes t0 fuel i,
        (getNode ((getAllChildrenNodes t0 fuel i).foldl
          (fun s n => blockNode s n true) t) j).blocked = true := by
  intro fuel
  induction fuel with
  | zero => intro i t _ _ _ _ j hj; simp [getAllChildrenNodes] at hj
  | succ fuel ih =>
    intro i t hi hst hnr hstart
    rw [getAllChildrenNodes]
    intro j hj
    rw [List.foldl_cons]
    set t1 := blockNode t i true with ht1
    have hst1 : StructPreserved t0 t1 :=
      structPreserved_trans hst (structPreserved_blockNode t i true)
    have hnr1 : NoRepeatedAll t1 := noRepeatedAll_blockNode i true hnr
    have hbl1 : (getNode t1 i).blocked = true := by
      rcases hstart with hb | hall
      · exact blockedMono_blockNode t i true i hb
      · refine blockNode_true_blocks (by rw [hst.1]; exact hi) (hnr i) ?_
        intro p hp
        rw [(hst.2.2 i).2.2.1] at hp
        exact hall p hp
    -- fold the concatenated child segments
    have aux : ∀ (cs : List Nat) (s : RequestTree),
        (∀ c ∈ cs, c ∈ (getNode t0 i).children) →
        StructPreserved t0 s → NoRepeatedAll s → (getNode s i).blocked = true →
        (getNode ((cs.map (getAllChildrenNodes t0 fuel)).flatten.foldl
            (fun s n => blockNode s n true) s) i).blocked = true ∧
        ∀ j ∈ (cs.map (getAllChildrenNodes t0 fuel)).flatten,
          (getNode ((cs.map (getAllChildrenNodes t0 fuel)).flatten.foldl
            (fun s n => blockNode s n true) s) j).blocked = true := by
      intro cs
      induction cs with
      | nil => intro s _ _ _ hbl; exact ⟨hbl, by simp⟩
      | cons c cr ihc =>
        intro s hcs hsts hnrs hbls
        have hcchild : c ∈ (getNode t0 i).children := hcs c (by simp)
        obtain ⟨_, hclt⟩ := wfEdges_child he hi hcchild
        have hparc : (getNode t0 c).parents = [i] := by
          have hmem : i ∈ (getNode t0 c).parents :=
            (wfParentChild_iff hpc hi hclt).1 hcchild
          exact eq_singleton_of_length_le_one (wfSingleParent_le hsp c) hmem
        rw [List.map_cons, List.flatten_cons, List.foldl_append]
        set s1 := (getAllChildrenNodes t0 fuel c).foldl
          (fun s n => blockNode s n true) s with hs1
        have hseg : ∀ j ∈ getAllChildrenNodes t0 fuel c,
            (getNode s1 j).blocked = true := by
          refine ih c s hclt hsts hnrs (Or.inr ?_)
          intro p hp
          rw [hparc, List.mem_singleton] at hp
          subst hp
          exact hbls
        have hsts1 : StructPreserved t0 s1 :=
          structPreserved_trans hsts
            (foldl_structPreserved (fun s a => structPreserved_blockNode s a true) _ s)
        have hnrs1 : NoRepeatedAll s1 := noRepeatedAll_foldl_blockNode hnrs
        have hbls1 : (getNode s1 i).blocked = true :=
          foldl_blockedMono (fun s a => blockedMono_blockNode s a true) _ s i hbls
        obtain ⟨hfin_i, hfin⟩ := ihc s1 (fun c' hc' => hcs c' (by simp [hc'])) hsts1 hnrs1 hbls1
        refine ⟨hfin_i, fun j hj => ?_⟩
        rw [List.mem_append] at hj
        rcases hj with hj | hj
        · exact foldl_blockedMono (fun s a => blockedMono_blockNode s a true) _ s1 j
            (hseg j hj)
        · exact hfin j hj
    rcases List.mem_cons.1 hj with rfl | hj
    · exact (aux (getNode t0 j).children t1 (fun _ h => h) hst1 hnr1 hbl1).1
    · exact (aux (getNode t0 i).children t1 (fun _ h => h) hst1 hnr1 hbl1).2 j hj

theorem noRepeatedAll_transitiveBlockPass {t : RequestTree} (pi : Nat)
    (hnr : NoRepeatedAll t) : NoRepeatedAll (transitiveBlockPass t pi) := by
  have key : ∀ (t1 : RequestTree) (L : List Nat), NoRepeatedAll t1 →
      NoRepeatedAll (L.foldl (fun s n => blockNode s n true)
        (if (getNode t1 pi).repeated then
          L.foldl (fun s n => setRepeated s n) t1 else t1)) := by
    intro t1 L h1
    rw [if_neg (by simp [h1 pi])]
    exact foldl_preserves (P := NoRepeatedAll) L
      (fun s a _ hs => noRepeatedAll_blockNode a true hs) t1 h1
  exact key (blockNode t pi false) _ (noRepeatedAll_blockNode pi false hnr)

theorem noRepeatedAll_transitiveBlockResource {t : RequestTree} (res : String)
    (hnr : NoRepeatedAll t) : NoRepeatedAll (transitiveBlockResource t res) :=
  foldl_preserves (P := NoRepeatedAll) _
    (fun s a _ hs => noRepeatedAll_transitiveBlockPass a hs) t hnr

/-- One pass of the transitive projection blocks the entire per-path subtree
of the found node (single-parent, repetition-free case). -/
theorem transitiveBlockPass_blocks_subtree {t0 : RequestTree}
    (he : wfEdges t0 = true) (hpc : wfParentChild t0 = true)
    (hsp : wfSingleParent t0 = true) {t : RequestTree} {pi : Nat}
    (hpilt : pi < t0.nodes.length) (hst : StructPreserved t0 t)
    (hnr : NoRepeatedAll t) :
    ∀ j ∈ getAllChildrenNodes t0 t0.nodes.length pi,
      (getNode (transitiveBlockPass t pi) j).blocked = true := by
  intro j hj
  have hst1 : StructPreserved t0 (blockNode t pi false) :=
    structPreserved_trans hst (structPreserved_blockNode t pi false)
  have hnr1 : NoRepeatedAll (blockNode t pi false) :=
    noRepeatedAll_blockNode pi false hnr
  have hchild : getAllChildrenNodes (blockNode t pi false)
      (blockNode t pi false).nodes.length pi =
      getAllChildrenNodes t0 t0.nodes.length pi := by
    rw [getAllChildrenNodes_congr hst1, hst1.1]
  show (getNode ((getAllChildrenNodes (blockNode t pi false)
      (blockNode t pi false).nodes.length pi).foldl (fun s n => blockNode s n true)
      (if (getNode (blockNode t pi false) pi).repeated then
        (getAllChildrenNodes (blockNode t pi false)
          (blockNode t pi false).nodes.length pi).foldl
          (fun s n => setRepeated s n) (blockNode t pi false)
      else blockNode t pi false)) j).blocked = true
  rw [if_neg (by simp [hnr1 pi]), hchild]
  refine blockTransFold_blocks_all he hpc hsp t0.nodes.length pi
    (blockNode t pi false) hpilt hst1 hnr1 (Or.inl ?_) j hj
  exact blockNode_false_blocks t (by rw [hst.1]; exact hpilt)

/-- The full transitive projection blocks every per-path descendant of every
directly matched node (single-parent, repetition-free trees). -/
theorem getTransitivelyBlockedTree_blocks_descendants {t0 : RequestTree}
    (he : wfEdges t0 = true) (hpc : wfParentChild t0 = true)
    (hsp : wfSingleParent t0 = true) (rs : List String) :
    ∀ (t : RequestTree), StructPreserved t0 t → NoRepeatedAll t →
    ∀ res ∈ rs, ∀ pi ∈ findNodes t0 t0.nodes.length t0.rootId res,
      ∀ j ∈ getAllChildrenNodes t0 t0.nodes.length pi,
        (getNode (rs.foldl transitiveBlockResource t) j).blocked = true := by
  induction rs with
  | nil => intro t _ _ res hres; simp at hres
  | cons r rest ihr =>
    intro t hst hnr res hres pi hpifind j hj
    have hpilt : pi < t0.nodes.length :=
      findNodes_mem_lt he _ (wfEdges_root he) hpifind
    rw [List.foldl_cons]
    rcases List.mem_cons.1 hres with rfl | hmem
    · -- the pass for `res` blocks j; later passes are monotone
      have hstep : (getNode (transitiveBlockResource t res) j).blocked = true := by
        rw [transitiveBlockResource, findNodes_congr hst, hst.1, hst.2.1]
        -- fold over the found nodes; pi is among them
        have aux : ∀ (l : List Nat) (s : RequestTree), StructPreserved t0 s →
            NoRepeatedAll s → pi ∈ l →
            (getNode (l.foldl transitiveBlockPass s) j).blocked = true := by
          intro l
          induction l with
          | nil => intro s _ _ hpi; simp at hpi
          | cons a l' ihl =>
            intro s hsts hnrs hpi
            rw [List.foldl_cons]
            rcases List.mem_cons.1 hpi with rfl | hpi'
            · exact foldl_blockedMono blockedMono_transitiveBlockPass l' _ j
                (transitiveBlockPass_blocks_subtree he hpc hsp hpilt hsts hnrs j hj)
            · exact ihl (transitiveBlockPass s a)
                (structPreserved_trans hsts (structPreserved_transitiveBlockPass s a))
                (noRepeatedAll_transitiveBlockPass a hnrs) hpi'
        exact aux _ t hst hnr hpifind
      exact foldl_blockedMono blockedMono_transitiveBlockResource rest _ j hstep
    · exact ihr (transitiveBlockResource t r)
        (structPreserved_trans hst (structPreserved_transitiveBlockResource t r))
        (noRepeatedAll_transitiveBlockResource r hnr) res hmem pi hpifind j hj

/-! ## C1 -/

/-- **C1**: transitive blocking semantics.  (a) Soundness: after the
transitive projection every blocked node was already blocked, is directly
matched by the block list, or has a non-empty parent set all of whose members
are blocked — so a multi-parent node is transitively blocked only when every
parent is blocked.  (b) A node whose `repeated` flag is set is never
transitively blocked (it can only be blocked directly).  (c) Completeness on
single-parent, repetition-free trees: every per-path descendant of a matched
node ends up blocked.  (d) The multi-parent example: for `C` with parents
`{B, E}`, blocking only `B` leaves `C` unblocked, blocking both `B` and `E`
blocks `C`. -/
theorem c1_transitive_blocking_semantics :
    (∀ (t0 : RequestTree) (rs : List String),
      wfEdges t0 = true → wfParentChild t0 = true →
      ∀ i, (getNode (getTransitivelyBlockedTree t0 rs) i).blocked = true →
        (getNode t0 i).blocked = true ∨ DirectlyMatched t0 rs i ∨
        ((getNode t0 i).parents ≠ [] ∧
          ∀ p ∈ (getNode t0 i).parents,
            (getNode (getTransitivelyBlockedTree t0 rs) p).blocked = true)) ∧
    (∀ (t0 : RequestTree) (rs : List String),
      wfEdges t0 = true → wfParentChild t0 = true →
      ∀ i, (getNode t0 i).repeated = true →
        (getNode (getTransitivelyBlockedTree t0 rs) i).blocked = true →
        (getNode t0 i).blocked = true ∨ DirectlyMatched t0 rs i) ∧
    (∀ (t0 : RequestTree) (rs : List String),
      wfEdges t0 = true → wfParentChild t0 = true → wfSingleParent t0 = true →
      wfNoRepeated t0 = true →
      ∀ res ∈ rs, ∀ pi ∈ findNodes t0 t0.nodes.length t0.rootId res,
        ∀ j ∈ getAllChildrenNodes t0 t0.nodes.length pi,
          (getNode (getTransitivelyBlockedTree t0 rs) j).blocked = true) ∧
    ((getTransitivelyBlockedTree multiParentTree ["B"]).nodes.map
      (fun nd => nd.blocked) = [false, true, false, false]) ∧
    ((getTransitivelyBlockedTree multiParentTree ["B", "E"]).nodes.map
      (fun nd => nd.blocked) = [false, true, true, true]) := by
  refine ⟨?_, ?_, ?_, by decide, by decide⟩
  · intro t0 rs he hpc i hi
    exact (transInv_getTransitivelyBlockedTree he hpc).2.1 i hi
  · intro t0 rs he hpc i hrep hi
    exact (transInv_getTransitivelyBlockedTree he hpc).2.2.2 i hrep hi
  · intro t0 rs he hpc hsp hnr res hres pi hpi j hj
    exact getTransitivelyBlockedTree_blocks_descendants he hpc hsp rs t0
      (structPreserved_refl t0) (wfNoRepeated_all hnr) res hres pi hpi j hj

/-- Witness for C1 at concrete trees: soundness applied to the blocked `C` of
the diamond, the repeated rule applied to the directly matched repeated `B`,
and completeness applied to descendant `C` of matched `B` in the example
tree. -/
theorem c1_witness :
    ((getNode multiParentTree 3).blocked = true ∨
      DirectlyMatched multiParentTree ["B", "E"] 3 ∨
      ((getNode multiParentTree 3).parents ≠ [] ∧
        ∀ p ∈ (getNode multiParentTree 3).parents,
          (getNode (getTransitivelyBlockedTree multiParentTree ["B", "E"])
            p).blocked = true)) ∧
    ((getNode repeatedExampleTree 1).blocked = true ∨
      DirectlyMatched repeatedExampleTree ["A", "B"] 1) ∧
    (getNode (getTransitivelyBlockedTree exampleTree ["B"]) 2).blocked = true :=
  ⟨c1_transitive_blocking_semantics.1 multiParentTree ["B", "E"] (by decide)
      (by decide) 3 (by decide),
   c1_transitive_blocking_semantics.2.1 repeatedExampleTree ["A", "B"] (by decide)
      (by decide) 1 (by decide) (by decide),
   c1_transitive_blocking_semantics.2.2.1 exampleTree ["B"] (by decide) (by decide)
      (by decide) (by decide) "B" (by decide) 1 (by decide) 2 (by decide)⟩

/-! ## C2: independence of the direct view from the transitive pass -/

/-- Key congruence: when every node blocked in `t2` but not in `t1` has all
its parents blocked in `t2`, the realistic first-blocked walk cannot tell the
two states apart: it stops at the same nodes.  (The walk only ever reaches a
node through an unblocked parent, and such a node cannot be
transitively-only blocked.) -/
theorem firstlyBlocked_eq_of_sound {t1 t2 : RequestTree}
    (hst : StructPreserved t1 t2) (hmono : BlockedMono t1 t2)
    (he : wfEdges t1 = true) (hpc : wfParentChild t1 = true)
    (hsound : ∀ i, (getNode t2 i).blocked = true →
      (getNode t1 i).blocked = true ∨
      ((getNode t1 i).parents ≠ [] ∧
        ∀ p ∈ (getNode t1 i).parents, (getNode t2 p).blocked = true)) :
    ∀ (fuel i : Nat), i < t1.nodes.length →
      (getNode t2 i).blocked = (getNode t1 i).blocked →
      firstlyBlocked t2 fuel i = firstlyBlocked t1 fuel i ∧
      firstBlockedFpdAttempts t2 fuel i = firstBlockedFpdAttempts t1 fuel i := by
  intro fuel
  induction fuel with
  | zero => intro i _ _; exact ⟨rfl, rfl⟩
  | succ fuel ih =>
    intro i hilt hiff
    have hchildiff : ∀ c ∈ (getNode t1 i).children,
        (getNode t1 i).blocked = false →
        ((getNode t2 c).blocked = (getNode t1 c).blocked ∧ c < t1.nodes.length) := by
      intro c hc hb1
      have hclt : c < t1.nodes.length := (wfEdges_child he hilt hc).2
      refine ⟨?_, hclt⟩
      cases hc2 : (getNode t2 c).blocked with
      | true =>
        rcases hsound c hc2 with h1 | h2
        · exact h1.symm
        · exfalso
          have hiparent : i ∈ (getNode t1 c).parents :=
            (wfParentChild_iff hpc hilt hclt).1 hc
          have : (getNode t2 i).blocked = true := h2.2 i hiparent
          rw [hiff, hb1] at this
          cases this
      | false =>
        cases hc1 : (getNode t1 c).blocked with
        | true =>
          have := hmono c hc1
          rw [this] at hc2
          cases hc2
        | false => rfl
    cases hb1 : (getNode t1 i).blocked with
    | true =>
      have hb2 : (getNode t2 i).blocked = true := hmono i hb1
      constructor
      · rw [firstlyBlocked, firstlyBlocked, if_pos hb2, if_pos hb1]
      · rw [firstBlockedFpdAttempts, firstBlockedFpdAttempts, if_pos hb2,
          if_pos hb1, (hst.2.2 i).2.2.2]
    | false =>
      have hb2 : (getNode t2 i).blocked = false := by rw [hiff, hb1]
      have hrec : ∀ c ∈ (getNode t1 i).children,
          firstlyBlocked t2 fuel c = firstlyBlocked t1 fuel c ∧
          firstBlockedFpdAttempts t2 fuel c = firstBlockedFpdAttempts t1 fuel c := by
        intro c hc
        obtain ⟨hciff, hclt⟩ := hchildiff c hc hb1
        exact ih c hclt hciff
      constructor
      · rw [firstlyBlocked, firstlyBlocked, if_neg (by simp [hb2]),
          if_neg (by simp [hb1]), (hst.2.2 i).2.1]
        exact congrArg List.flatten
          (List.map_congr_left fun c hc => (hrec c hc).1)
      · rw [firstBlockedFpdAttempts, firstBlockedFpdAttempts,
          if_neg (by simp [hb2]), if_neg (by simp [hb1]), (hst.2.2 i).2.1]
        have foldcongr : ∀ (l : List Nat),
            (∀ c ∈ l, firstBlockedFpdAttempts t2 fuel c =
              firstBlockedFpdAttempts t1 fuel c) →
            ∀ acc : FpMap,
              (l.foldlM (fun acc c => do
                let sub ← firstBlockedFpdAttempts t2 fuel c
                addSubstractFpAttempts sub acc) acc) =
              (l.foldlM (fun acc c => do
                let sub ← firstBlockedFpdAttempts t1 fuel c
                addSubstractFpAttempts sub acc) acc) := by
          intro l
          induction l with
          | nil => intro _ acc; rfl
          | cons c cr ihl =>
            intro hcs acc
            rw [List.foldlM_cons, List.foldlM_cons, hcs c (by simp)]
            cases firstBlockedFpdAttempts t1 fuel c with
            | none => rfl
            | some sub =>
              simp only [Option.bind_eq_bind, Option.some_bind]
              cases addSubstractFpAttempts sub acc with
              | none => rfl
              | some acc2 =>
                exact ihl (fun c' hc' => hcs c' (by simp [hc'])) acc2
        exact foldcongr _ (fun c hc => (hrec c hc).2) []

/-- **C2** (amended): the per-page direct-view metrics — the firstly-blocked
node list (whose length is `requests_blocked_directly`) and the first-blocked
FPD attempts — are unchanged by also running the transitive projection on the
same tree, exactly as `simulate_blocking` does: computing them on the shared
state after both projections gives the same values as computing them after
the direct projection alone.  Not because of a clone or a flag reset (there
is none): the transitive pass only blocks nodes all of whose parents are
blocked, and the firstly-blocked walk never descends past a blocked node, so
the extra flags sit on nodes the walk never reads. -/
theorem c2_direct_view_independence (t0 : RequestTree) (rs : List String)
    (he : wfEdges t0 = true) (hpc : wfParentChild t0 = true)
    (hrp : wfRootParentless t0 = true) :
    firstlyBlocked (getTransitivelyBlockedTree (getDirectlyBlockedTree t0 rs) rs)
        (getTransitivelyBlockedTree (getDirectlyBlockedTree t0 rs) rs).nodes.length
        (getTransitivelyBlockedTree (getDirectlyBlockedTree t0 rs) rs).rootId =
      firstlyBlocked (getDirectlyBlockedTree t0 rs)
        (getDirectlyBlockedTree t0 rs).nodes.length
        (getDirectlyBlockedTree t0 rs).rootId ∧
    (firstlyBlocked (getTransitivelyBlockedTree (getDirectlyBlockedTree t0 rs) rs)
        (getTransitivelyBlockedTree (getDirectlyBlockedTree t0 rs) rs).nodes.length
        (getTransitivelyBlockedTree (getDirectlyBlockedTree t0 rs) rs).rootId).length =
      (firstlyBlocked (getDirectlyBlockedTree t0 rs)
        (getDirectlyBlockedTree t0 rs).nodes.length
        (getDirectlyBlockedTree t0 rs).rootId).length ∧
    firstBlockedFpdAttempts
        (getTransitivelyBlockedTree (getDirectlyBlockedTree t0 rs) rs)
        (getTransitivelyBlockedTree (getDirectlyBlockedTree t0 rs) rs).nodes.length
        (getTransitivelyBlockedTree (getDirectlyBlockedTree t0 rs) rs).rootId =
      firstBlockedFpdAttempts (getDirectlyBlockedTree t0 rs)
        (getDirectlyBlockedTree t0 rs).nodes.length
        (getDirectlyBlockedTree t0 rs).rootId := by
  set t1 := getDirectlyBlockedTree t0 rs with ht1
  set t2 := getTransitivelyBlockedTree t1 rs with ht2
  have hst01 : StructPreserved t0 t1 := structPreserved_getDirectlyBlockedTree t0 rs
  have he1 : wfEdges t1 = true := wfEdges_of_struct hst01 he
  have hpc1 : wfParentChild t1 = true := wfParentChild_of_struct hst01 hpc
  have hrp1 : wfRootParentless t1 = true := wfRootParentless_of_struct hst01 hrp
  have hinv : TransInv t1 t2 rs := transInv_getTransitivelyBlockedTree he1 hpc1
  have hst12 : StructPreserved t1 t2 := hinv.1
  have hmono : BlockedMono t1 t2 := by
    rw [ht2]
    exact blockedMono_getTransitivelyBlockedTree t1 rs
  have hsound : ∀ i, (getNode t2 i).blocked = true →
      (getNode t1 i).blocked = true ∨
      ((getNode t1 i).parents ≠ [] ∧
        ∀ p ∈ (getNode t1 i).parents, (getNode t2 p).blocked = true) := by
    intro i hi
    rcases hinv.2.1 i hi with h1 | h2 | h3
    · exact Or.inl h1
    · left
      obtain ⟨res, hres, hfind⟩ := h2
      rw [findNodes_congr hst01, hst01.1, hst01.2.1] at hfind
      exact directlyMatched_blocked he ⟨res, hres, hfind⟩
    · exact Or.inr h3
  have hrootiff : (getNode t2 t1.rootId).blocked = (getNode t1 t1.rootId).blocked := by
    cases hb1 : (getNode t1 t1.rootId).blocked with
    | true => exact hmono t1.rootId hb1
    | false =>
      cases hb2 : (getNode t2 t1.rootId).blocked with
      | true =>
        rcases hsound t1.rootId hb2 with h1 | h2
        · rw [h1] at hb1; cases hb1
        · exact absurd (wfRootParentless_eq hrp1) h2.1
      | false => rfl
  have hmain := firstlyBlocked_eq_of_sound hst12 hmono he1 hpc1 hsound
    t1.nodes.length t1.rootId (wfEdges_root he1) hrootiff
  rw [hst12.1, hst12.2.1]
  exact ⟨hmain.1, by rw [hmain.1], hmain.2⟩

/-- Counterexample to C2's mechanism clause: `simulate_blocking` neither
clones the tree nor resets flags — both projections mutate one shared tree,
and the state every metric is read from (the doubly projected tree) still
carries the transitively set `blocked` flag of `C` (id 2), which the direct
projection alone leaves clear; the two projection results are distinct
states, not copies of one another. -/
theorem c2_counterexample_no_clone_or_reset :
    getTransitivelyBlockedTree (getDirectlyBlockedTree exampleTree ["B"]) ["B"] ≠
      getDirectlyBlockedTree exampleTree ["B"] ∧
    (getNode (getTransitivelyBlockedTree (getDirectlyBlockedTree exampleTree
        ["B"]) ["B"]) 2).blocked = true ∧
    (getNode (getDirectlyBlockedTree exampleTree ["B"]) 2).blocked = false := by
  decide

/-- Witness for the amended C2 theorem at the diamond tree with block list
`["B"]`. -/
theorem c2_witness :
    firstlyBlocked
        (getTransitivelyBlockedTree (getDirectlyBlockedTree multiParentTree ["B"]) ["B"])
        (getTransitivelyBlockedTree (getDirectlyBlockedTree multiParentTree ["B"])
          ["B"]).nodes.length
        (getTransitivelyBlockedTree (getDirectlyBlockedTree multiParentTree ["B"])
          ["B"]).rootId =
      firstlyBlocked (getDirectlyBlockedTree multiParentTree ["B"])
        (getDirectlyBlockedTree multiParentTree ["B"]).nodes.length
        (getDirectlyBlockedTree multiParentTree ["B"]).rootId :=
  (c2_direct_view_independence multiParentTree ["B"] (by decide) (by decide)
    (by decide)).1

/-! ## C6: aggregator lemmas -/

theorem addSub_nil_left (m : FpMap) (add : Bool) :
    addSubstractFpAttempts [] m add = some m := by
  cases m with
  | nil => rfl
  | cons p rest => simp [addSubstractFpAttempts]

theorem addSub_nil_right (m : FpMap) (add : Bool) :
    addSubstractFpAttempts m [] add = some m := by
  simp [addSubstractFpAttempts]

theorem fpKeys_map_pair (f : String × Int → Int) (m : List (String × Int)) :
    fpKeys (m.map (fun p => (p.1, f p))) = fpKeys m := by
  rw [fpKeys, fpKeys, List.map_map]
  rfl

theorem fpGet_map_pair (f : String × Int → Int) (m : List (String × Int))
    (k : String) :
    fpGet (m.map (fun p => (p.1, f p))) k = (fpGet m k).map (fun v => f (k, v)) := by
  induction m with
  | nil => rfl
  | cons p rest ih =>
    by_cases h : p.1 = k
    · obtain ⟨k', v⟩ := p
      simp only at h
      subst h
      simp [fpGet]
    · simp [fpGet, h, ih]

/-- Pointwise reading of the elementwise combination. -/
theorem fpGetD_map_add (m2 : List (String × Int)) (acc : List (String × Int))
    (hnone : ∀ k, fpGet acc k = none → fpGetD m2 k 0 = 0) (k : String) :
    fpGetD (acc.map (fun p => (p.1, p.2 + fpGetD m2 p.1 0))) k 0 =
      fpGetD acc k 0 + fpGetD m2 k 0 := by
  rw [fpGetD, fpGet_map_pair (fun p => p.2 + fpGetD m2 p.1 0)]
  cases hga : fpGet acc k with
  | some v => simp [fpGetD, hga]
  | none =>
    have h0 := hnone k hga
    rw [fpGetD] at h0
    simp [fpGetD, hga, h0]

/-- One aggregation step of a map-valued metric under the fixed schema:
`add_substract_fp_attempts` succeeds, keeps the schema, and adds pointwise. -/
theorem addSub_entry_step {K : List String} {acc m : FpMap}
    (hacc : fpKeys acc = K ∨ acc = []) (hm : fpKeys m = K ∨ m = []) :
    ∃ r, addSubstractFpAttempts acc m true = some r ∧
      (fpKeys r = K ∨ r = []) ∧
      ∀ k, fpGetD r k 0 = fpGetD acc k 0 + fpGetD m k 0 := by
  by_cases hacc0 : acc = []
  · subst hacc0
    refine ⟨m, addSub_nil_left m true, hm, fun k => by simp [fpGetD, fpGet]⟩
  · by_cases hm0 : m = []
    · subst hm0
      refine ⟨acc, addSub_nil_right acc true, hacc, fun k => by simp [fpGetD, fpGet]⟩
    · have hka : fpKeys acc = K := hacc.resolve_right hacc0
      have hkm : fpKeys m = K := hm.resolve_right hm0
      have hlen : m.length ≤ acc.length := by
        have h1 : acc.length = K.length := by rw [← hka, fpKeys, List.length_map]
        have h2 : m.length = K.length := by rw [← hkm, fpKeys, List.length_map]
        rw [h1, h2]
      have hmemkeys : ∀ k, k ∈ fpKeys acc ↔ k ∈ fpKeys m := by
        intro k
        rw [hka, hkm]
      have hnone : ∀ k, fpGet acc k = none → fpGetD m k 0 = 0 := by
        intro k hk
        have : ¬ k ∈ fpKeys m := by
          rw [← hmemkeys, ← fpGet_isSome_iff_mem_keys, hk]
          simp
        rw [← fpGet_isSome_iff_mem_keys, Option.not_isSome_iff_eq_none] at this
        rw [fpGetD, this]
        rfl
      have hother : ∀ k, fpGet (if fpDictEq acc m then acc else m) k = fpGet m k := by
        intro k
        split
        · rename_i hdq
          exact fpGet_eq_of_fpDictEq hdq k
        · rfl
      have hsome : ∀ p ∈ acc, (fpGet (if fpDictEq acc m then acc else m) p.1).isSome := by
        intro p hp
        rw [hother, fpGet_isSome_iff_mem_keys, ← hmemkeys]
        exact List.mem_map_of_mem _ hp
      refine ⟨acc.map (fun p => (p.1, p.2 + fpGetD m p.1 0)), ?_, ?_, ?_⟩
      · rw [addSubstractFpAttempts]
        simp only [if_pos hlen, if_neg (show ¬ (acc = [] ∨ m = []) by simp [hacc0, hm0])]
        rw [combineEntries_eq_map hsome]
        refine congrArg some (List.map_congr_left fun p _ => ?_)
        have : fpGetD (if fpDictEq acc m then acc else m) p.1 0 = fpGetD m p.1 0 := by
          rw [fpGetD, hother]
          rfl
        rw [this]
        simp
      · left
        rw [show (fun (p : String × Int) => (p.1, p.2 + fpGetD m p.1 0)) =
            (fun (p : String × Int) => (p.1, (fun q : String × Int =>
              q.2 + fpGetD m q.1 0) p)) from rfl]
        rw [fpKeys_map_pair]
        exact hka
      · exact fpGetD_map_add m acc hnone

/-- One aggregation step of the subtree metric. -/
theorem addSubtrees_entry_step {S : List String} {acc m : List (String × Int)}
    (hacc : fpKeys acc = S ∨ acc = []) (hm : fpKeys m = S ∨ m = []) :
    ∃ r, addSubtrees acc m = some r ∧ (fpKeys r = S ∨ r = []) ∧
      ∀ k, fpGetD r k 0 = fpGetD acc k 0 + fpGetD m k 0 := by
  by_cases hacc0 : acc = []
  · subst hacc0
    refine ⟨m, by rw [addSubtrees]; simp, hm, fun k => by simp [fpGetD, fpGet]⟩
  · by_cases hm0 : m = []
    · subst hm0
      refine ⟨acc, ?_, hacc, fun k => by simp [fpGetD, fpGet]⟩
      rw [addSubtrees, if_neg hacc0]
      simp
    · have hka : fpKeys acc = S := hacc.resolve_right hacc0
      have hkm : fpKeys m = S := hm.resolve_right hm0
      have hmemkeys : ∀ k, k ∈ fpKeys acc ↔ k ∈ fpKeys m := by
        intro k
        rw [hka, hkm]
      have hnone : ∀ k, fpGet acc k = none → fpGetD m k 0 = 0 := by
        intro k hk
        have : ¬ k ∈ fpKeys m := by
          rw [← hmemkeys, ← fpGet_isSome_iff_mem_keys, hk]
          simp
        rw [← fpGet_isSome_iff_mem_keys, Option.not_isSome_iff_eq_none] at this
        rw [fpGetD, this]
        rfl
      have hsome : ∀ p ∈ acc, (fpGet m p.1).isSome := by
        intro p hp
        rw [fpGet_isSome_iff_mem_keys, ← hmemkeys]
        exact List.mem_map_of_mem _ hp
      refine ⟨acc.map (fun p => (p.1, p.2 + fpGetD m p.1 0)), ?_, ?_, ?_⟩
      · rw [addSubtrees, if_neg hacc0, if_neg hm0, combineEntries_eq_map hsome]
      · left
        rw [show (fun (p : String × Int) => (p.1, p.2 + fpGetD m p.1 0)) =
            (fun (p : String × Int) => (p.1, (fun q : String × Int =>
              q.2 + fpGetD m q.1 0) p)) from rfl]
        rw [fpKeys_map_pair]
        exact hka
      · exact fpGetD_map_add m acc hnone

theorem entryKeysOk_iff {K : List String} {m : List (String × Int)}
    (h : entryKeysOk K m = true) : fpKeys m = K ∨ m = [] := by
  rw [entryKeysOk, Bool.or_eq_true] at h
  rcases h with h | h
  · exact Or.inl (of_decide_eq_true h)
  · exact Or.inr (of_decide_eq_true h)

theorem entryKeysOk_of {K : List String} {m : List (String × Int)}
    (h : fpKeys m = K ∨ m = []) : entryKeysOk K m = true := by
  rw [entryKeysOk, Bool.or_eq_true]
  rcases h with h | h
  · exact Or.inl (decide_eq_true h)
  · exact Or.inr (decide_eq_true h)

theorem aggDelta_nil (tot : TotalResults) : AggDelta tot tot [] := by
  simp [AggDelta]

theorem aggDelta_append {tot T W : TotalResults} {l1 l2 : List PageResult}
    (h1 : AggDelta tot T l1) (h2 : AggDelta T W l2) :
    AggDelta tot W (l1 ++ l2) := by
  obtain ⟨A1, B1, C1, D1, E1, F1, G1, H1, I1, J1, K1⟩ := h1
  obtain ⟨A2, B2, C2, D2, E2, F2, G2, H2, I2, J2, K2⟩ := h2
  refine ⟨⟨?_, ?_⟩, ⟨?_, ?_⟩, ⟨?_, ?_⟩, ⟨?_, ?_⟩, ⟨?_, ?_⟩, ⟨?_, ?_⟩,
    ⟨?_, fun k => ?_⟩, ⟨?_, fun k => ?_⟩, ⟨?_, fun k => ?_⟩, ⟨?_, fun k => ?_⟩,
    ⟨?_, fun k => ?_⟩⟩
  · rw [A2.1, A1.1, List.length_append]; push_cast; ring
  · rw [A2.2, A1.2, List.map_append, List.sum_append, add_assoc]
  · rw [B2.1, B1.1, List.length_append]; push_cast; ring
  · rw [B2.2, B1.2, List.map_append, List.sum_append, add_assoc]
  · rw [C2.1, C1.1, List.length_append]; push_cast; ring
  · rw [C2.2, C1.2, List.map_append, List.sum_append, add_assoc]
  · rw [D2.1, D1.1, List.length_append]; push_cast; ring
  · rw [D2.2, D1.2, List.map_append, List.sum_append, add_assoc]
  · rw [E2.1, E1.1, List.length_append]; push_cast; ring
  · rw [E2.2, E1.2, List.map_append, List.sum_append, add_assoc]
  · rw [F2.1, F1.1, List.map_append, List.sum_append, add_assoc]
  · rw [F2.2, F1.2, List.foldl_append]
  · rw [G2.1, G1.1, List.length_append]; push_cast; ring
  · rw [G2.2 k, G1.2 k, List.map_append, List.sum_append, add_assoc]
  · rw [H2.1, H1.1, List.length_append]; push_cast; ring
  · rw [H2.2 k, H1.2 k, List.map_append, List.sum_append, add_assoc]
  · rw [I2.1, I1.1, List.length_append]; push_cast; ring
  · rw [I2.2 k, I1.2 k, List.map_append, List.sum_append, add_assoc]
  · rw [J2.1, J1.1, List.length_append]; push_cast; ring
  · rw [J2.2 k, J1.2 k, List.map_append, List.sum_append, add_assoc]
  · rw [K2.1, K1.1, List.length_append]; push_cast; ring
  · rw [K2.2 k, K1.2 k, List.map_append, List.sum_append, add_assoc]

/-- Folding one page into `total_results` succeeds under the fixed schema and
changes each entry by exactly that page's contribution. -/
theorem processPageResult_delta {K S : List String} {tot : TotalResults}
    {r : PageResult} (htot : totalsSchemaOk K S tot = true)
    (hr : pageSchemaOk K S r = true) :
    ∃ tot', processPageResult tot r = some tot' ∧
      totalsSchemaOk K S tot' = true ∧ AggDelta tot tot' [r] := by
  rw [totalsSchemaOk, Bool.and_eq_true, Bool.and_eq_true, Bool.and_eq_true,
    Bool.and_eq_true] at htot
  obtain ⟨⟨⟨⟨ht1, ht2⟩, ht3⟩, ht4⟩, ht5⟩ := htot
  rw [pageSchemaOk, Bool.and_eq_true, Bool.and_eq_true, Bool.and_eq_true,
    Bool.and_eq_true] at hr
  obtain ⟨⟨⟨⟨hr1, hr2⟩, hr3⟩, hr4⟩, hr5⟩ := hr
  obtain ⟨m1, e1, s1, d1⟩ := addSub_entry_step (entryKeysOk_iff ht1) (entryKeysOk_iff hr1)
  obtain ⟨m2, e2, s2, d2⟩ := addSub_entry_step (entryKeysOk_iff ht2) (entryKeysOk_iff hr2)
  obtain ⟨m3, e3, s3, d3⟩ := addSub_entry_step (entryKeysOk_iff ht3) (entryKeysOk_iff hr3)
  obtain ⟨m4, e4, s4, d4⟩ := addSub_entry_step (entryKeysOk_iff ht4) (entryKeysOk_iff hr4)
  obtain ⟨m5, e5, s5, d5⟩ := addSubtrees_entry_step (entryKeysOk_iff ht5) (entryKeysOk_iff hr5)
  refine ⟨{
      fpdAttemptsObserved := ⟨tot.fpdAttemptsObserved.nOfResults + 1, m1⟩
      fpdAttemptsBlockedDirectly := ⟨tot.fpdAttemptsBlockedDirectly.nOfResults + 1, m2⟩
      fpdAttemptsBlockedTransitively :=
        ⟨tot.fpdAttemptsBlockedTransitively.nOfResults + 1, m3⟩
      fpdAttemptsBlockedInTotal := ⟨tot.fpdAttemptsBlockedInTotal.nOfResults + 1, m4⟩
      requestsObserved := ⟨tot.requestsObserved.nOfResults + 1,
        tot.requestsObserved.sum + r.requestsObserved⟩
      requestsBlockedDirectly := ⟨tot.requestsBlockedDirectly.nOfResults + 1,
        tot.requestsBlockedDirectly.sum + r.requestsBlockedDirectly⟩
      requestsBlockedInTotal := ⟨tot.requestsBlockedInTotal.nOfResults + 1,
        tot.requestsBlockedInTotal.sum + r.requestsBlockedInTotal⟩
      requestsBlockedTransitively := ⟨tot.requestsBlockedTransitively.nOfResults + 1,
        tot.requestsBlockedTransitively.sum + r.requestsBlockedTransitively⟩
      requestsBlockedThatHaveChildRequests :=
        ⟨tot.requestsBlockedThatHaveChildRequests.nOfResults + 1,
          tot.requestsBlockedThatHaveChildRequests.sum +
            r.requestsBlockedThatHaveChildRequests⟩
      averageRequestBlockLevel :=
        ⟨(if r.averageRequestBlockLevel = f64Zero then
            tot.averageRequestBlockLevel.nOfResults - 1
          else tot.averageRequestBlockLevel.nOfResults) + 1,
          f64Add tot.averageRequestBlockLevel.sum r.averageRequestBlockLevel⟩
      blockedSubtreesData := ⟨tot.blockedSubtreesData.nOfResults + 1, m5⟩ },
    ?_, ?_, ?_⟩
  · rw [processPageResult]
    rw [e1, e2, e3, e4, e5]
    rfl
  · rw [totalsSchemaOk]
    simp only [Bool.and_eq_true]
    exact ⟨⟨⟨⟨entryKeysOk_of s1, entryKeysOk_of s2⟩, entryKeysOk_of s3⟩,
      entryKeysOk_of s4⟩, entryKeysOk_of s5⟩
  · refine ⟨⟨by simp, by simp⟩, ⟨by simp, by simp⟩, ⟨by simp, by simp⟩,
      ⟨by simp, by simp⟩, ⟨by simp, by simp⟩, ⟨?_, by simp⟩,
      ⟨by simp, fun k => ?_⟩, ⟨by simp, fun k => ?_⟩, ⟨by simp, fun k => ?_⟩,
      ⟨by simp, fun k => ?_⟩, ⟨by simp, fun k => ?_⟩⟩
    · simp only [List.map_cons, List.map_nil, List.sum_cons, List.sum_nil]
      split <;> omega
    · simp only [List.map_cons, List.map_nil, List.sum_cons, List.sum_nil, add_zero]
      exact d1 k
    · simp only [List.map_cons, List.map_nil, List.sum_cons, List.sum_nil, add_zero]
      exact d2 k
    · simp only [List.map_cons, List.map_nil, List.sum_cons, List.sum_nil, add_zero]
      exact d3 k
    · simp only [List.map_cons, List.map_nil, List.sum_cons, List.sum_nil, add_zero]
      exact d4 k
    · simp only [List.map_cons, List.map_nil, List.sum_cons, List.sum_nil, add_zero]
      exact d5 k

/-- Aggregating any schema-respecting batch from any schema-respecting
accumulator succeeds and adds exactly the batch's contribution. -/
theorem computeSums_total {K S : List String} :
    ∀ l : List PageResult, resultsSchemaOk K S l = true →
      ∀ tot : TotalResults, totalsSchemaOk K S tot = true →
        ∃ T, computeSumsCountResources l tot = some T ∧
          totalsSchemaOk K S T = true ∧ AggDelta tot T l := by
  intro l
  induction l with
  | nil =>
    intro _ tot htot
    exact ⟨tot, rfl, htot, aggDelta_nil tot⟩
  | cons r rest ih =>
    intro hl tot htot
    rw [resultsSchemaOk, List.all_cons, Bool.and_eq_true] at hl
    obtain ⟨tot', hrun, htot', hd1⟩ := processPageResult_delta htot hl.1
    obtain ⟨T, hrunT, hTok, hd2⟩ := ih hl.2 tot' htot'
    refine ⟨T, ?_, hTok, ?_⟩
    · rw [computeSumsCountResources, List.foldlM_cons, hrun]
      exact hrunT
    · have := aggDelta_append hd1 hd2
      simpa using this

/-- **C6** (amended): aggregating a batch of per-page results sharing the
fixed metric schema in one `compute_sums_count_resources` call produces
exactly the elementwise sum of the fields produced by aggregating any two
sub-batches separately, for every `n_of_results` count and for the `sum` of
every metric except `average_request_block_level`: that sum is a running
binary64 float, and float addition is not associative. -/
theorem c6_amended_aggregator_associativity (K S : List String)
    (l1 l2 : List PageResult)
    (h1 : resultsSchemaOk K S l1 = true) (h2 : resultsSchemaOk K S l2 = true) :
    ∃ W T1 T2,
      computeSumsCountResources (l1 ++ l2) initialTotalResults = some W ∧
      computeSumsCountResources l1 initialTotalResults = some T1 ∧
      computeSumsCountResources l2 initialTotalResults = some T2 ∧
      AggCombines T1 T2 W := by
  have hinit : totalsSchemaOk K S initialTotalResults = true := by
    rw [totalsSchemaOk]
    simp [initialTotalResults, entryKeysOk]
  obtain ⟨T1, r1, s1T, d1⟩ := computeSums_total l1 h1 initialTotalResults hinit
  obtain ⟨T2, r2, s2T, d2⟩ := computeSums_total l2 h2 initialTotalResults hinit
  obtain ⟨W, rW, sWT, dW⟩ := computeSums_total l2 h2 T1 s1T
  refine ⟨W, T1, T2, ?_, r1, r2, ?_⟩
  · rw [computeSumsCountResources, List.foldlM_append]
    rw [show l1.foldlM processPageResult initialTotalResults = some T1 from r1]
    simpa using rW
  · obtain ⟨A2, B2, C2, D2, E2, F2, G2, H2, I2, J2, K2⟩ := d2
    obtain ⟨AW, BW, CW, DW, EW, FW, GW, HW, IW, JW, KW⟩ := dW
    refine ⟨⟨?_, ?_⟩, ⟨?_, ?_⟩, ⟨?_, ?_⟩, ⟨?_, ?_⟩, ⟨?_, ?_⟩, ?_,
      ⟨?_, fun k => ?_⟩, ⟨?_, fun k => ?_⟩, ⟨?_, fun k => ?_⟩, ⟨?_, fun k => ?_⟩,
      ⟨?_, fun k => ?_⟩⟩
    · rw [AW.1, A2.1]; simp [initialTotalResults]
    · rw [AW.2, A2.2]; simp [initialTotalResults]
    · rw [BW.1, B2.1]; simp [initialTotalResults]
    · rw [BW.2, B2.2]; simp [initialTotalResults]
    · rw [CW.1, C2.1]; simp [initialTotalResults]
    · rw [CW.2, C2.2]; simp [initialTotalResults]
    · rw [DW.1, D2.1]; simp [initialTotalResults]
    · rw [DW.2, D2.2]; simp [initialTotalResults]
    · rw [EW.1, E2.1]; simp [initialTotalResults]
    · rw [EW.2, E2.2]; simp [initialTotalResults]
    · rw [FW.1, F2.1]; simp [initialTotalResults]
    · rw [GW.1, G2.1]; simp [initialTotalResults]
    · rw [GW.2 k, G2.2 k]; simp [initialTotalResults, fpGetD, fpGet]
    · rw [HW.1, H2.1]; simp [initialTotalResults]
    · rw [HW.2 k, H2.2 k]; simp [initialTotalResults, fpGetD, fpGet]
    · rw [IW.1, I2.1]; simp [initialTotalResults]
    · rw [IW.2 k, I2.2 k]; simp [initialTotalResults, fpGetD, fpGet]
    · rw [JW.1, J2.1]; simp [initialTotalResults]
    · rw [JW.2 k, J2.2 k]; simp [initialTotalResults, fpGetD, fpGet]
    · rw [KW.1, K2.1]; simp [initialTotalResults]
    · rw [KW.2 k, K2.2 k]; simp [initialTotalResults, fpGetD, fpGet]

/-- Witness for the amended C6 theorem at two concrete one-page batches. -/
theorem c6_witness :
    ∃ W T1 T2,
      computeSumsCountResources ([examplePageResult1] ++ [examplePageResult2])
        initialTotalResults = some W ∧
      computeSumsCountResources [examplePageResult1] initialTotalResults = some T1 ∧
      computeSumsCountResources [examplePageResult2] initialTotalResults = some T2 ∧
      AggCombines T1 T2 W :=
  c6_amended_aggregator_associativity ["BrowserProperties"] ["subtrees_in_total"]
    [examplePageResult1] [examplePageResult2] (by decide) (by decide)

/-- Counterexample to C6 as stated: the `sum` of the float metric
`average_request_block_level` does not combine additively across sub-batches.
With page averages `1.0`, `6.0` and the binary64 value of `4/3`, split
`[p1] / [p2, p3]`, the whole-batch running float sum is
`8.333333333333334` (`4691249611844267 * 2 ^ -49`) while the sub-batch sums
are `1.0` and `7.333333333333333`; adding those two floats gives
`8.333333333333332` — one ulp lower — and their exact rational sum is not
representable at all, so neither reading of the elementwise sum matches. -/
theorem c6_counterexample_float_sum_not_additive :
    (computeSumsCountResources
        ([examplePageFloat1] ++ [examplePageFloat2, examplePageFloat3])
        initialTotalResults).map
      (fun T => T.averageRequestBlockLevel.sum) =
      some ⟨4691249611844267, -49⟩ ∧
    (computeSumsCountResources [examplePageFloat1] initialTotalResults).map
      (fun T => T.averageRequestBlockLevel.sum) =
      some ⟨4503599627370496, -52⟩ ∧
    (computeSumsCountResources [examplePageFloat2, examplePageFloat3]
        initialTotalResults).map
      (fun T => T.averageRequestBlockLevel.sum) =
      some ⟨8256599316845909, -50⟩ ∧
    f64Add ⟨4503599627370496, -52⟩ ⟨8256599316845909, -50⟩ =
      ⟨4691249611844266, -49⟩ ∧
    (⟨4691249611844267, -49⟩ : F64) ≠ ⟨4691249611844266, -49⟩ ∧
    f64Val ⟨4691249611844267, -49⟩ ≠
      f64Val ⟨4503599627370496, -52⟩ + f64Val ⟨8256599316845909, -50⟩ := by
  refine ⟨by decide, by decide, by decide, by decide, by decide, ?_⟩
  simp only [f64Val]
  norm_num

/-! ## C4: builder robustness lemmas -/

theorem getD_set_node (nodes : List RequestNode) (i : Nat) (nd : RequestNode)
    (j : Nat) :
    (nodes.set i nd).getD j default =
      if j = i ∧ i < nodes.length then nd else nodes.getD j default := by
  by_cases h1 : i < nodes.length
  · by_cases h2 : j = i
    · subst h2
      rw [if_pos ⟨rfl, h1⟩, List.getD_eq_getElem?_getD, List.getElem?_set_self h1]
      rfl
    · rw [if_neg (by simp [h2]), List.getD_eq_getElem?_getD,
        List.getElem?_set_ne (Ne.symm h2), ← List.getD_eq_getElem?_getD]
  · rw [List.set_eq_of_length_le (le_of_not_lt h1), if_neg (by simp [h1])]

theorem listGet_mem {β : Type} {m : List (String × β)} {k : String} {v : β}
    (h : listGet m k = some v) : (k, v) ∈ m := by
  induction m with
  | nil => simp [listGet] at h
  | cons p rest ih =>
    by_cases hk : p.1 = k
    · rw [listGet, if_pos hk] at h
      cases h
      exact List.mem_cons.2 (Or.inl (by simp [← hk]))
    · rw [listGet, if_neg hk] at h
      exact List.mem_cons_of_mem _ (ih h)

theorem fpTableOk_get {K : List String} {fp : FpTable}
    (h : fpTableOk K fp = true) (res : String) :
    entryKeysOk K ((listGet fp res).getD []) = true := by
  cases hg : listGet fp res with
  | none => exact entryKeysOk_of (Or.inr rfl)
  | some m =>
    rw [fpTableOk, List.all_eq_true] at h
    exact h (res, m) (listGet_mem hg)

/-- `add_substract_fp_attempts` is total on schema-respecting maps, for both
add and subtract, and respects the schema. -/
theorem addSub_total {K : List String} {a b : FpMap} (add : Bool)
    (ha : fpKeys a = K ∨ a = []) (hb : fpKeys b = K ∨ b = []) :
    ∃ r, addSubstractFpAttempts a b add = some r ∧ (fpKeys r = K ∨ r = []) := by
  by_cases ha0 : a = []
  · subst ha0
    exact ⟨b, addSub_nil_left b add, hb⟩
  · by_cases hb0 : b = []
    · subst hb0
      exact ⟨a, addSub_nil_right a add, ha⟩
    · have hka : fpKeys a = K := ha.resolve_right ha0
      have hkb : fpKeys b = K := hb.resolve_right hb0
      have hlen : b.length ≤ a.length := by
        have h1 : a.length = K.length := by rw [← hka, fpKeys, List.length_map]
        have h2 : b.length = K.length := by rw [← hkb, fpKeys, List.length_map]
        rw [h1, h2]
      have hother : ∀ k, fpGet (if fpDictEq a b then a else b) k = fpGet b k := by
        intro k
        split
        · rename_i hdq
          exact fpGet_eq_of_fpDictEq hdq k
        · rfl
      have hsome : ∀ p ∈ a, (fpGet (if fpDictEq a b then a else b) p.1).isSome := by
        intro p hp
        rw [hother, fpGet_isSome_iff_mem_keys, hkb, ← hka]
        exact List.mem_map_of_mem _ hp
      refine ⟨a.map (fun p => (p.1,
          if add = true then p.2 + fpGetD (if fpDictEq a b then a else b) p.1 0
          else p.2 - fpGetD (if fpDictEq a b then a else b) p.1 0)), ?_, ?_⟩
      · rw [addSubstractFpAttempts]
        simp only [if_pos hlen, if_neg (show ¬ (a = [] ∨ b = []) by simp [ha0, hb0])]
        exact combineEntries_eq_map hsome
      · left
        rw [fpKeys_map_pair (fun q => if add = true then
            q.2 + fpGetD (if fpDictEq a b then a else b) q.1 0
          else q.2 - fpGetD (if fpDictEq a b then a else b) q.1 0)]
        exact hka

/-- `add_child` / `add_parent` only touch the link lists, never FP maps. -/
theorem addChildNodes_fp (nodes : List RequestNode) (p c j : Nat) :
    ((addChildNodes nodes p c).getD j default).fpAttempts =
      (nodes.getD j default).fpAttempts := by
  rw [addChildNodes]
  split
  · rfl
  · set nodes1 := nodes.set p
      { nodes.getD p default with
        children := (nodes.getD p default).children ++ [c] } with hnodes1
    have h1 : ∀ j, (nodes1.getD j default).fpAttempts =
        (nodes.getD j default).fpAttempts := by
      intro j
      rw [hnodes1, getD_set_node]
      split
      · rename_i hc
        rw [hc.1]
      · rfl
    dsimp only
    split
    · exact h1 j
    · rw [getD_set_node]
      split
      · rename_i hc
        rw [hc.1]
        exact h1 c
      · exact h1 j

theorem nodesFpOk_addChildNodes {K : List String} {nodes : List RequestNode}
    (h : NodesFpOk K nodes) (p c : Nat) : NodesFpOk K (addChildNodes nodes p c) := by
  intro j
  rw [addChildNodes_fp]
  exact h j

theorem nodesFpOk_foldl_addChildNodes {K : List String} {l : List Nat}
    {nodes : List RequestNode} (h : NodesFpOk K nodes) (c : Nat) :
    NodesFpOk K (l.foldl (fun ns p => addChildNodes ns p c) nodes) := by
  induction l generalizing nodes with
  | nil => exact h
  | cons a rest ih =>
    rw [List.foldl_cons]
    exact ih (nodesFpOk_addChildNodes h a c)

theorem nodesFpOk_set {K : List String} {nodes : List RequestNode}
    (h : NodesFpOk K nodes) {i : Nat} {nd : RequestNode}
    (hnd : entryKeysOk K nd.fpAttempts = true) :
    NodesFpOk K (nodes.set i nd) := by
  intro j
  rw [getD_set_node]
  split
  · exact hnd
  · exact h j

theorem nodesFpOk_append {K : List String} {nodes : List RequestNode}
    (h : NodesFpOk K nodes) {nd : RequestNode}
    (hnd : entryKeysOk K nd.fpAttempts = true) :
    NodesFpOk K (nodes ++ [nd]) := by
  intro j
  by_cases hj : j < nodes.length
  · rw [List.getD_eq_getElem?_getD, List.getElem?_append_left hj,
      ← List.getD_eq_getElem?_getD]
    exact h j
  · by_cases hj2 : j = nodes.length
    · subst hj2
      rw [List.getD_eq_getElem?_getD, List.getElem?_append_right (le_refl _)]
      simpa using hnd
    · have : nodes.length + 1 ≤ j := by omega
      rw [List.getD_eq_getElem?_getD, List.getElem?_eq_none (by simpa using this)]
      exact entryKeysOk_of (Or.inr rfl)

theorem stateFindNodes_eq {st : BuildState} {r : Nat}
    (h : st.treeRootId = some r) (res : String) :
    stateFindNodes st res = some (findNodes ⟨st.nodes, r⟩ st.nodes.length r res) := by
  rw [stateFindNodes, h]
  rfl

theorem fixMissingParent_total {K : List String} {st : BuildState} {nodeId : Nat}
    (hinv : BuildInv K st) :
    ∃ st', fixMissingParent st nodeId = some st' ∧ BuildInv K st' := by
  obtain ⟨c, hc⟩ := Option.isSome_iff_exists.1 hinv.2.1
  refine ⟨_, by rw [fixMissingParent, hc]; rfl, ?_⟩
  exact ⟨hinv.1, rfl, nodesFpOk_addChildNodes hinv.2.2 c nodeId⟩

theorem assignDirectParent_total {K : List String} {record : TrafficRecord}
    {st : BuildState} {nodeId : Nat} (hinv : BuildInv K st) :
    ∃ st', assignDirectParent record st nodeId = some st' ∧ BuildInv K st' := by
  rw [assignDirectParent]
  split
  · exact ⟨st, rfl, hinv⟩
  · obtain ⟨r, hr⟩ := Option.isSome_iff_exists.1 hinv.1
    rw [stateFindNodes_eq hr]
    simp only [Option.bind_eq_bind, Option.some_bind]
    split
    · exact fixMissingParent_total hinv
    · exact ⟨_, rfl, hinv.1, hinv.2.1,
        nodesFpOk_foldl_addChildNodes hinv.2.2 nodeId⟩

theorem assignParentFromCallstack_total {K : List String} {currentResource : String}
    {stack : CallStack} {st : BuildState} {nodeId : Nat} (hinv : BuildInv K st) :
    ∃ st', assignParentFromCallstack currentResource stack st nodeId = some st' ∧
      BuildInv K st' := by
  have hfinish : ∀ (st1 : BuildState), BuildInv K st1 → ∀ n : Nat,
      ∃ st', (if n = 1 then do
          let currentRoot ← st1.currentRootId
          pure { st1 with nodes := addChildNodes st1.nodes currentRoot nodeId }
        else pure st1) = some st' ∧ BuildInv K st' := by
    intro st1 hinv1 n
    split
    · obtain ⟨c, hc⟩ := Option.isSome_iff_exists.1 hinv1.2.1
      rw [hc]
      simp only [Option.bind_eq_bind, Option.some_bind, Option.pure_def]
      exact ⟨_, rfl, hinv1.1, rfl, nodesFpOk_addChildNodes hinv1.2.2 c nodeId⟩
    · exact ⟨st1, rfl, hinv1⟩
  rw [assignParentFromCallstack]
  obtain ⟨r, hr⟩ := Option.isSome_iff_exists.1 hinv.1
  dsimp only
  split
  · rw [stateFindNodes_eq hr]
    simp only [Option.bind_eq_bind, Option.some_bind]
    split
    · rename_i hnil
      rw [hnil]
      simp only [List.foldl_nil]
      obtain ⟨stA, hstA, hinvA⟩ :=
        @fixMissingParent_total K { st with nodes := st.nodes } nodeId hinv
      rw [hstA]
      simp only [Option.bind_eq_bind, Option.some_bind]
      exact hfinish stA hinvA _
    · simp only [Option.bind_eq_bind, Option.pure_def, Option.some_bind]
      refine hfinish _ ?_ _
      exact ⟨hinv.1, hinv.2.1, nodesFpOk_foldl_addChildNodes hinv.2.2 nodeId⟩
  · simp only [Option.bind_eq_bind, Option.pure_def, Option.some_bind]
    exact hfinish st hinv _

theorem addNewRootNode_zero_total {K : List String} {st : BuildState}
    {nodeId : Nat} {fp : FpTable} {lower : Bool}
    (hfp : fpTableOk K fp = true) (hnodes : NodesFpOk K st.nodes) :
    ∃ st', addNewRootNode st 0 nodeId fp lower = some st' ∧ BuildInv K st' := by
  rw [addNewRootNode]
  simp only [if_pos rfl]
  obtain ⟨m, hm, hmok⟩ := addSub_total true
    (entryKeysOk_iff (hnodes nodeId))
    (entryKeysOk_iff (fpTableOk_get hfp ANONYMOUS_CALLERS))
  rw [hm]
  simp only [Option.bind_eq_bind, Option.some_bind]
  exact ⟨_, rfl, rfl, rfl, nodesFpOk_set hnodes (entryKeysOk_of hmok)⟩

theorem addNewRootNode_succ_total {K : List String} {st : BuildState}
    {idx nodeId : Nat} {fp : FpTable} {lower : Bool} (hidx : idx ≠ 0)
    (hfp : fpTableOk K fp = true) (hinv : BuildInv K st) :
    ∃ st', addNewRootNode st idx nodeId fp lower = some st' ∧ BuildInv K st' := by
  rw [addNewRootNode]
  rw [if_neg hidx]
  obtain ⟨r, hr⟩ := Option.isSome_iff_exists.1 hinv.1
  obtain ⟨c, hc⟩ := Option.isSome_iff_exists.1 hinv.2.1
  rw [stateFindNodes_eq hr, hc]
  simp only [Option.bind_eq_bind, Option.some_bind]
  split
  · split
    · exact ⟨st, rfl, hinv⟩
    · refine ⟨_, rfl, hinv.1, rfl, ?_⟩
      exact nodesFpOk_set (nodesFpOk_addChildNodes hinv.2.2 c nodeId)
        (entryKeysOk_of (Or.inr rfl))
  · have hnodes1 : NodesFpOk K ((addChildNodes st.nodes c nodeId).set nodeId
        { (addChildNodes st.nodes c nodeId).getD nodeId default with
          rootNode := true }) := by
      refine nodesFpOk_set (nodesFpOk_addChildNodes hinv.2.2 c nodeId) ?_
      rw [addChildNodes_fp]
      exact hinv.2.2 nodeId
    obtain ⟨m1, hm1, hm1ok⟩ := addSub_total false
      (entryKeysOk_iff (hnodes1 c))
      (entryKeysOk_iff (fpTableOk_get hfp ANONYMOUS_CALLERS))
    rw [hm1]
    simp only [Option.bind_eq_bind, Option.some_bind]
    have hnodes2 : NodesFpOk K (((addChildNodes st.nodes c nodeId).set nodeId
        { (addChildNodes st.nodes c nodeId).getD nodeId default with
          rootNode := true }).set c
        { ((addChildNodes st.nodes c nodeId).set nodeId
            { (addChildNodes st.nodes c nodeId).getD nodeId default with
              rootNode := true }).getD c default with fpAttempts := m1 }) :=
      nodesFpOk_set hnodes1 (entryKeysOk_of hm1ok)
    obtain ⟨m2, hm2, hm2ok⟩ := addSub_total true
      (entryKeysOk_iff (hnodes2 nodeId))
      (entryKeysOk_iff (fpTableOk_get hfp ANONYMOUS_CALLERS))
    rw [hm2]
    simp only [Option.bind_eq_bind, Option.some_bind]
    exact ⟨_, rfl, hinv.1, rfl, nodesFpOk_set hnodes2 (entryKeysOk_of hm2ok)⟩

theorem markRepeated_total {K : List String} {st2 : BuildState} {e : Nat}
    (hinv2 : BuildInv K st2) :
    BuildInv K { st2 with nodes := st2.nodes.set e { st2.nodes.getD e default with repeated := true } } :=
  ⟨hinv2.1, hinv2.2.1, nodesFpOk_set hinv2.2.2 (hinv2.2.2 e)⟩

theorem stackNone_total {K : List String} {st2 : BuildState} {nodeId : Nat}
    (hinv2 : BuildInv K st2) :
    ∃ st', (do
        let currentRoot ← st2.currentRootId
        pure { st2 with nodes := addChildNodes st2.nodes currentRoot nodeId }) =
      some st' ∧ BuildInv K st' := by
  obtain ⟨c, hc⟩ := Option.isSome_iff_exists.1 hinv2.2.1
  rw [hc]
  simp only [Option.bind_eq_bind, Option.some_bind, Option.pure_def]
  exact ⟨_, rfl, hinv2.1, rfl, nodesFpOk_addChildNodes hinv2.2.2 c nodeId⟩

theorem processRecordBody_total {K : List String} {record : TrafficRecord}
    {fp : FpTable} {lower : Bool} {idx : Nat} {st1 : BuildState} {nodeId : Nat}
    (hfp : fpTableOk K fp = true) (hinv1 : BuildInv K st1) :
    ∃ st', (if record.requested_for = record.requested_resource ∧
        record.initiator.itype = "other" then
        if record.initiator.url = none then
          addNewRootNode st1 idx nodeId fp lower
        else pure st1
      else do
        let existingNodes ← stateFindNodes st1 record.requested_resource
        let st2 :=
          if existingNodes ≠ [] then
            { st1 with nodes := st1.nodes.set nodeId { st1.nodes.getD nodeId default with fpAttempts := [] } }
          else st1
        match lower, existingNodes with
        | true, e :: _ =>
          pure { st2 with nodes := st2.nodes.set e { st2.nodes.getD e default with repeated := true } }
        | _, _ =>
          if record.initiator.url ≠ none then assignDirectParent record st2 nodeId
          else
            match record.initiator.stack with
            | some stack =>
              assignParentFromCallstack record.requested_resource stack st2 nodeId
            | none => do
                let currentRoot ← st2.currentRootId
                pure { st2 with
                  nodes := addChildNodes st2.nodes currentRoot nodeId }) =
      some st' ∧ BuildInv K st' := by
  split
  · split
    · by_cases hidx : idx = 0
      · subst hidx
        exact addNewRootNode_zero_total hfp hinv1.2.2
      · exact addNewRootNode_succ_total hidx hfp hinv1
    · exact ⟨st1, rfl, hinv1⟩
  · obtain ⟨r, hr⟩ := Option.isSome_iff_exists.1 hinv1.1
    rw [stateFindNodes_eq hr]
    simp only [Option.bind_eq_bind, Option.some_bind]
    have hsetInv : ∀ (l : List Nat), BuildInv K
        (if l ≠ [] then { st1 with nodes := st1.nodes.set nodeId { st1.nodes.getD nodeId default with fpAttempts := [] } } else st1) := by
      intro l
      split
      · exact ⟨hinv1.1, hinv1.2.1,
          nodesFpOk_set hinv1.2.2 (entryKeysOk_of (Or.inr rfl))⟩
      · exact hinv1
    split
    · refine ⟨_, rfl, ?_⟩
      refine markRepeated_total ?_
      exact hsetInv _
    · split
      · refine assignDirectParent_total ?_
        exact hsetInv _
      · split
        · refine assignParentFromCallstack_total ?_
          exact hsetInv _
        · refine stackNone_total ?_
          exact hsetInv _

theorem processRecord_total {K : List String} {fp : FpTable} {lower : Bool}
    {st : BuildState} {idx : Nat} {record : TrafficRecord}
    (hfp : fpTableOk K fp = true) (hinv : BuildInv K st) :
    ∃ st', processRecord lower fp st idx record = some st' ∧ BuildInv K st' := by
  rw [processRecord]
  refine processRecordBody_total hfp ?_
  exact ⟨hinv.1, hinv.2.1,
    nodesFpOk_append hinv.2.2 (fpTableOk_get hfp record.requested_resource)⟩

theorem nodesFpOk_nil {K : List String} : NodesFpOk K ([] : List RequestNode) :=
  fun _ => entryKeysOk_of (Or.inr rfl)

theorem processRecord_first_total {K : List String} {fp : FpTable} {lower : Bool}
    {r0 : TrafficRecord} (hfp : fpTableOk K fp = true)
    (hroot : isRootCandidate r0 = true) :
    ∃ st', processRecord lower fp ⟨[], none, none⟩ 0 r0 = some st' ∧
      BuildInv K st' := by
  rw [isRootCandidate, Bool.and_eq_true, Bool.and_eq_true] at hroot
  obtain ⟨⟨h1, h2⟩, h3⟩ := hroot
  rw [processRecord]
  dsimp only
  rw [if_pos ⟨of_decide_eq_true h1, of_decide_eq_true h2⟩,
    if_pos (of_decide_eq_true h3)]
  exact addNewRootNode_zero_total hfp
    (nodesFpOk_append nodesFpOk_nil (fpTableOk_get hfp r0.requested_resource))

theorem foldlM_processRecord_total {K : List String} {fp : FpTable} {lower : Bool}
    (hfp : fpTableOk K fp = true) :
    ∀ (ps : List (Nat × TrafficRecord)) (st : BuildState), BuildInv K st →
      ∃ st', ps.foldlM (fun s p => processRecord lower fp s p.1 p.2) st =
        some st' ∧ BuildInv K st' := by
  intro ps
  induction ps with
  | nil => exact fun st h => ⟨st, rfl, h⟩
  | cons p rest ih =>
    intro st h
    obtain ⟨st1, h1, hinv1⟩ := @processRecord_total K fp lower st p.1 p.2 hfp h
    rw [List.foldlM_cons, h1]
    simp only [Option.bind_eq_bind, Option.some_bind]
    exact ih st1 hinv1

/-- Counterexample to C4: `reconstruct_tree` is not total.  When the very
first record is not a root candidate, no tree exists yet, and the builder
calls `find_nodes` on the still-`None` tree: the Python `AttributeError`,
modelled as the outer `none`. -/
theorem c4_counterexample_crash_on_nonroot_first_record :
    reconstructTree [⟨"A", "B", none, ⟨"script", none, none⟩⟩] [] false =
      none := rfl

/-- C4 (amended): provided the first record is a root candidate and every FP
map of the attribution table draws its keys from one fixed group schema `K`,
the builder is total: on any further records whatsoever (unknown initiator
URLs, missing or fully filtered call stacks included) `reconstruct_tree`
raises no exception and returns a tree, every unresolved parent falling back
to attachment under the current root. -/
theorem c4_amended_builder_totality {K : List String} {fp : FpTable}
    {lower : Bool} {r0 : TrafficRecord} {rest : List TrafficRecord}
    (hfp : fpTableOk K fp = true) (hroot : isRootCandidate r0 = true) :
    ∃ t, reconstructTree (r0 :: rest) fp lower = some (some t) := by
  obtain ⟨st1, h1, hinv1⟩ := @processRecord_first_total K fp lower r0 hfp hroot
  obtain ⟨st2, h2, hinv2⟩ :=
    foldlM_processRecord_total hfp (rest.enumFrom 1) st1 hinv1
  obtain ⟨r, hr⟩ := Option.isSome_iff_exists.1 hinv2.1
  refine ⟨⟨st2.nodes, r⟩, ?_⟩
  rw [reconstructTree, List.enum_cons, List.foldlM_cons]
  simp only [h1, Option.bind_eq_bind, Option.some_bind]
  rw [h2]
  simp [hr]

/-- Witness for the amended C4 theorem: a concrete two-record run (a root
candidate followed by a record with an unknown initiator URL) satisfies both
hypotheses and produces a tree. -/
theorem c4_witness :
    (fpTableOk [] ([] : FpTable) = true ∧
      isRootCandidate ⟨"A", "A", none, ⟨"other", none, none⟩⟩ = true) ∧
    ∃ t, reconstructTree
      [⟨"A", "A", none, ⟨"other", none, none⟩⟩,
       ⟨"P", "B", none, ⟨"script", some "A", none⟩⟩] [] false =
      some (some t) :=
  ⟨⟨by decide, by decide⟩,
    c4_amended_builder_totality (K := ([] : List String)) (by decide) (by decide)⟩

end DIP
